import Mathlib

/-!
Verification of the Media Assembly Pipeline of the repository
(`app/utils/video_combiner.py` and `add_audio_to_video.py`).

The Python code is shallowly embedded as Lean functions over an explicit
`World` state: a filesystem (a map from absolute path strings to file
contents), an HTTP oracle (what `httpx` would answer for each URL, `none`
meaning a raised network exception), an external-tool oracle (what the
`ffmpeg` child process would do: its exit code, its stderr text, and the
filesystem it leaves behind), a stream of fresh UUID strings standing for
`uuid.uuid4()`, and an oracle saying on which paths `os.remove` raises an
`OSError`.  The embedding also keeps instrumentation traces (ffmpeg
invocations with the filesystem before and after, download attempts, and
removed paths) so that theorems can speak about what the pipeline did,
not only about its return value.
-/

namespace VideoCombiner

/-- The (fixed) current working directory of the Python process; relative
paths given to `os.path.abspath`, `os.path.exists`, `open`, ... resolve
against it. -/
def cwd : String := "/workdir"

/-- A path is absolute when it starts with a slash (POSIX). -/
def isAbsolute (p : String) : Bool := p.data.head? = some '/'

/-- `os.path.abspath` (no `..`/`.` normalisation is needed for the paths the
pipeline builds): absolute paths are kept, relative ones are resolved
against the working directory. -/
def resolve (p : String) : String :=
  if isAbsolute p then p else cwd ++ "/" ++ p

/-- `os.path.join a b` for a single join step (POSIX rules). -/
def pyJoin (a b : String) : String :=
  if isAbsolute b then b
  else if a = "" then b
  else if a.data.getLast? = some '/' then a ++ b
  else a ++ "/" ++ b

/-- The characters of the last path component (everything after the last
slash). -/
def basenameData (p : String) : List Char :=
  (p.data.reverse.takeWhile (fun c => ¬ (c = '/'))).reverse

/-- `os.path.basename`. -/
def basename (p : String) : String := String.mk (basenameData p)

/-- `os.path.dirname`. -/
def dirname (p : String) : String :=
  let l := p.data
  let head := l.take (l.length - (basenameData p).length)
  if head = [] then ""
  else if head.all (fun c => c = '/') then String.mk head
  else String.mk ((head.reverse.dropWhile (fun c => c = '/')).reverse)

/-- `os.path.splitext` restricted to a (slash-free) final path component:
the extension starts at the last dot, unless every character before that
dot is itself a dot (CPython's rule, so that ".bashrc" has no extension). -/
def splitExtBase (b : List Char) : List Char × List Char :=
  let rest := b.dropWhile (fun c => c = '.')
  if rest.any (fun c => c = '.') then
    let r2 := (rest.reverse.takeWhile (fun c => ¬ (c = '.'))).reverse
    (b.take (b.length - r2.length - 1), '.' :: r2)
  else (b, [])

/-- `os.path.splitext` on a full path: split the extension off the last
component, keep the directory part with the root. -/
def splitext (p : String) : String × String :=
  let l := p.data
  let b := basenameData p
  let pre := l.take (l.length - b.length)
  let se := splitExtBase b
  (String.mk (pre ++ se.1), String.mk se.2)

/-- Python's `str.strip()` (whitespace strip on both ends). -/
def pyStrip (s : String) : String :=
  String.mk (((s.data.dropWhile Char.isWhitespace).reverse.dropWhile
    Char.isWhitespace).reverse)

/-- The format `f"{n:03d}"` used for the sequential clip filenames. -/
def pad3 (n : Nat) : String :=
  if n < 10 then "00" ++ toString n
  else if n < 100 then "0" ++ toString n
  else toString n

/-- A single quote character (the quoting used around manifest paths). -/
def squote : String := String.singleton (Char.ofNat 39)

/-- One HTTP response as seen by `httpx`: status code and body bytes. -/
structure HttpResponse where
  status : Nat
  content : String
deriving Repr, DecidableEq

/-- A record of one invocation of the external `ffmpeg` process: the argv,
the filesystem at the moment of the call, and the exit code, stderr and
filesystem the process left behind. -/
structure FfmpegCall where
  cmd : List String
  fsBefore : String → Option String
  rc : Int
  stderr : String
  fsAfter : String → Option String

/-- The world state threaded through the embedded Python functions.
`fs` maps absolute paths to file contents (`none` = no such file);
`http`, `ffmpeg`, `uuidStream` and `removeRaises` are environment oracles;
`nextUuid` is the position in the uuid stream; the last three fields are
instrumentation traces of what the run did. -/
structure World where
  fs : String → Option String
  http : String → Option HttpResponse
  ffmpeg : List String → (String → Option String) → Int × String × (String → Option String)
  uuidStream : Nat → String
  removeRaises : String → Bool
  nextUuid : Nat
  ffmpegCalls : List FfmpegCall
  fetchLog : List String
  removeLog : List String

/-- Write `content` at the (already resolved) path `p`, as Python's
`open(p, "wb")` / `open(p, "w")` followed by a full write does. -/
def fsWrite (w : World) (p content : String) : World :=
  { w with fs := fun q => if q = p then some content else w.fs q }

/-- `os.remove` on an (already resolved) path, in the case where it does
not raise; the removed path is recorded in the trace. -/
def fsRemoveRaw (w : World) (p : String) : World :=
  { w with fs := fun q => if q = p then none else w.fs q,
           removeLog := w.removeLog ++ [p] }

/-- Run the external `ffmpeg` process via the world's oracle, recording the
invocation in the trace. -/
def runFfmpeg (w : World) (cmd : List String) : (Int × String) × World :=
  let r := w.ffmpeg cmd w.fs
  ((r.1, r.2.1),
   { w with fs := r.2.2,
            ffmpegCalls := w.ffmpegCalls ++
              [{ cmd := cmd, fsBefore := w.fs, rc := r.1,
                 stderr := r.2.1, fsAfter := r.2.2 }] })

/-- `download_video(url, output_path)` (video_combiner.py, lines 18-44):
GET the URL (any raised exception is caught and yields `False`), fail on a
status other than 200, otherwise write the body to `output_path` and
report success.  Every call is a fetch attempt and is recorded in the
trace. -/
def download_video (url output_path : String) (w : World) : Bool × World :=
  match w.http url with
  | none => (false, { w with fetchLog := w.fetchLog ++ [url] })
  | some r =>
    if r.status ≠ 200 then (false, { w with fetchLog := w.fetchLog ++ [url] })
    else (true, fsWrite { w with fetchLog := w.fetchLog ++ [url] }
      (resolve output_path) r.content)

/-- The input-validation loop of `combine_videos` (lines 59-66): every
input path must exist and have non-zero size. -/
def validateInputs (w : World) : List String → Bool
  | [] => true
  | p :: ps =>
    match w.fs (resolve p) with
    | none => false
    | some c => if c.length = 0 then false else validateInputs w ps

/-- One line of the concat manifest (line 78): `file '<absolute path>'`. -/
def manifestLine (p : String) : String :=
  "file " ++ squote ++ resolve p ++ squote ++ "\n"

/-- The full contents of the concat manifest: one line per input, in input
order (the write loop of lines 74-79 / 203-208). -/
def manifestContent : List String → String
  | [] => ""
  | p :: ps => manifestLine p ++ manifestContent ps

/-- The ffmpeg argv built at lines 87-95. -/
def ffmpegConcatCmd (listFile outputPath : String) : List String :=
  ["ffmpeg", "-y", "-f", "concat", "-safe", "0", "-i", listFile,
   "-c", "copy", outputPath]

/-- The `finally` block of `combine_videos` (lines 125-132): if a list
file was created and still exists, remove it; a failure of the removal is
caught and only logged. -/
def cleanupListFile (w : World) (lf : String) : World :=
  match w.fs lf with
  | none => w
  | some _ => if w.removeRaises lf then w else fsRemoveRaw w lf

/-- `combine_videos(video_paths, output_path)` (lines 46-132): validate
the inputs, write the concat manifest under `temp/` with a fresh uuid in
its name, reject an empty manifest, run ffmpeg, and declare success only
if ffmpeg exited 0 and the output file exists and is non-empty; the
manifest is removed on every exit path that created it. -/
def combine_videos (video_paths : List String) (output_path : String)
    (w : World) : Bool × World :=
  if validateInputs w video_paths = false then (false, w)
  else
    let u := w.uuidStream w.nextUuid
    let w1 := { w with nextUuid := w.nextUuid + 1 }
    let lf := cwd ++ "/temp/video_list_" ++ u ++ ".txt"
    let w2 := fsWrite w1 lf (manifestContent video_paths)
    match w2.fs lf with
    | none => (false, cleanupListFile w2 lf)
    | some m =>
      if m.length = 0 then (false, cleanupListFile w2 lf)
      else
        let r := runFfmpeg w2 (ffmpegConcatCmd lf output_path)
        let w3 := r.2
        if r.1.1 ≠ 0 then (false, cleanupListFile w3 lf)
        else
          match w3.fs (resolve output_path) with
          | none => (false, cleanupListFile w3 lf)
          | some c =>
            if c.length = 0 then (false, cleanupListFile w3 lf)
            else (true, cleanupListFile w3 lf)

/-- The dict returned by `combine_videos_from_urls` (its possible keys). -/
structure CombineResult where
  success : Bool
  error : Option String := none
  combined_video_path : Option String := none
  download_url : Option String := none
  videos_directory : Option String := none
  video_count : Option Nat := none
deriving Repr, DecidableEq

/-- The sequentially numbered local filename for the `i`-th (0-based) URL
(line 175): `video_{i+1:03d}.mp4` inside the batch's download folder. -/
def clipPath (videosDir : String) (i : Nat) : String :=
  videosDir ++ "/video_" ++ pad3 (i + 1) ++ ".mp4"

/-- The download loop of `combine_videos_from_urls` (lines 172-197):
fetch each URL in order into its sequential clip file, stopping at the
first failure with the corresponding error message; on success return the
list of local clip paths in URL order. -/
def downloadLoop (videosDir : String) :
    List String → Nat → World → Except String (List String) × World
  | [], _, w => (Except.ok [], w)
  | url :: rest, i, w =>
    let d := download_video url (clipPath videosDir i) w
    if d.1 = false then
      (Except.error ("Failed to download video " ++ toString (i + 1) ++
        " from URL: " ++ url), d.2)
    else
      match d.2.fs (resolve (clipPath videosDir i)) with
      | none =>
        (Except.error ("Downloaded video file " ++ toString (i + 1) ++
          " is missing or empty"), d.2)
      | some c =>
        if c.length = 0 then
          (Except.error ("Downloaded video file " ++ toString (i + 1) ++
            " is missing or empty"), d.2)
        else
          match downloadLoop videosDir rest (i + 1) d.2 with
          | (Except.ok ps, w2) => (Except.ok (clipPath videosDir i :: ps), w2)
          | (Except.error e, w2) => (Except.error e, w2)

/-- The `finally` block of `combine_videos_from_urls` (lines 237-245): the
orchestrator's own list file is removed if it exists, but — unlike in
`combine_videos` — the `os.remove` call is not wrapped in a `try`, so a
removal failure propagates as a raised exception (`Except.error`),
discarding the result computed by the body. -/
def finallyRemove (lf : String) (res : CombineResult) (w : World) :
    Except String CombineResult × World :=
  match w.fs lf with
  | none => (Except.ok res, w)
  | some _ =>
    if w.removeRaises lf then
      (Except.error ("OSError: failed to remove " ++ lf), w)
    else (Except.ok res, fsRemoveRaw w lf)

/-- `combine_videos_from_urls(video_urls, output_dir)` (lines 134-245):
allocate a batch id (a uuid4 truncated to 8 characters, line 150), build
the batch download directory and the output path, download all URLs in
order (fail-fast), write the orchestrator's own concat list file, call
`combine_videos`, and return the structured result dict; the `finally`
block then removes the orchestrator's list file (unprotected, see
`finallyRemove`).  `Except.ok` is the normal structured-dict return,
`Except.error` a propagated exception. -/
def combine_videos_from_urls (video_urls : List String)
    (output_dir : String := "combined_generated_videos") (w : World) :
    Except String CombineResult × World :=
  let batch_id := (w.uuidStream w.nextUuid).take 8
  let w0 := { w with nextUuid := w.nextUuid + 1 }
  let videosDir := cwd ++ "/downloaded_videos/batch_" ++ batch_id
  let outputDirAbs := resolve output_dir
  let combinedName := "combined_" ++ batch_id ++ ".mp4"
  let combinedPath := pyJoin outputDirAbs combinedName
  match downloadLoop videosDir video_urls 0 w0 with
  | (Except.error e, w1) =>
    -- the list file was never assigned, so the finally block does nothing
    (Except.ok { success := false, error := some e }, w1)
  | (Except.ok paths, w1) =>
    let lf := cwd ++ "/temp/video_list_" ++ batch_id ++ ".txt"
    let w2 := fsWrite w1 lf (manifestContent paths)
    let r := combine_videos paths combinedPath w2
    if r.1 = false then
      finallyRemove lf { success := false, error := some "Failed to combine videos" } r.2
    else
      finallyRemove lf
        { success := true,
          combined_video_path := some combinedPath,
          download_url := some ("/download/" ++ basename combinedPath),
          videos_directory := some videosDir,
          video_count := some paths.length } r.2

/-- The dict returned by `add_audio_to_video` (its possible keys). -/
structure AudioResult where
  success : Bool
  error : Option String := none
  output_path : Option String := none
deriving Repr, DecidableEq

/-- The output-path derivation of `add_audio_to_video` (lines 41-57): if
no output path was supplied (or a whitespace-only one), derive it from the
video's directory, base name and extension; reject an empty result; and if
the chosen path has no extension, append the video's own extension.
Returns `none` when the (unreachable) "Output path is empty" error fires. -/
def resolveOutputPath (video_path : String) (outOpt : Option String) :
    Option String :=
  let derived :=
    let se := splitext (basename video_path)
    pyJoin (dirname video_path) (se.1 ++ "_with_audio" ++ se.2)
  let chosen :=
    match outOpt with
    | none => derived
    | some s => if pyStrip s = "" then derived else s
  if pyStrip chosen = "" then none
  else if (splitext chosen).2 = "" then
    some (chosen ++ (splitext video_path).2)
  else some chosen

/-- The ffmpeg argv built at lines 63-73 of add_audio_to_video.py. -/
def addAudioCmd (video_path audio_path output_path : String) : List String :=
  ["ffmpeg", "-y", "-i", video_path, "-i", audio_path, "-map", "0:v",
   "-map", "1:a", "-c:v", "copy", "-shortest", output_path]

/-- `add_audio_to_video(video_path, audio_path, output_path)`
(add_audio_to_video.py, lines 19-120): check both inputs exist, derive the
output path, run ffmpeg, and verify exit code 0 and a non-empty output
file before reporting success. -/
def add_audio_to_video (video_path audio_path : String)
    (outOpt : Option String) (w : World) : AudioResult × World :=
  match w.fs (resolve video_path) with
  | none =>
    ({ success := false,
       error := some ("Input video does not exist: " ++ video_path) }, w)
  | some _ =>
    match w.fs (resolve audio_path) with
    | none =>
      ({ success := false,
         error := some ("Input audio does not exist: " ++ audio_path) }, w)
    | some _ =>
      match resolveOutputPath video_path outOpt with
      | none => ({ success := false, error := some "Output path is empty" }, w)
      | some out =>
        let r := runFfmpeg w (addAudioCmd video_path audio_path out)
        if r.1.1 ≠ 0 then
          ({ success := false,
             error := some ("FFmpeg error: " ++ r.1.2) }, r.2)
        else
          match r.2.fs (resolve out) with
          | none =>
            ({ success := false,
               error := some ("Output file was not created: " ++ out) }, r.2)
          | some c =>
            if c.length = 0 then
              ({ success := false,
                 error := some ("Output file is empty: " ++ out) }, r.2)
            else ({ success := true, output_path := some out }, r.2)

/-! ### String and path helper lemmas -/

theorem string_append_left_cancel {a b c : String} (h : a ++ b = a ++ c) :
    b = c := by
  apply String.ext
  have h2 := congrArg String.data h
  rw [String.data_append, String.data_append] at h2
  exact List.append_cancel_left h2

theorem string_append_right_cancel {a b c : String} (h : a ++ c = b ++ c) :
    a = b := by
  apply String.ext
  have h2 := congrArg String.data h
  rw [String.data_append, String.data_append] at h2
  exact List.append_cancel_right h2

/-- No path ending in `.txt` equals a path ending in `.mp4`: removing only
manifest files can never delete a clip or an output video. -/
theorem txt_ne_mp4 (s t : String) : s ++ ".txt" ≠ t ++ ".mp4" := by
  intro h
  have h2 : (s.data ++ ".txt".data).getLast? = (t.data ++ ".mp4".data).getLast? := by
    rw [← String.data_append, ← String.data_append, h]
  rw [List.getLast?_append, List.getLast?_append] at h2
  have e1 : ".txt".data.getLast? = some 't' := rfl
  have e2 : ".mp4".data.getLast? = some '4' := rfl
  rw [e1, e2, Option.or_some, Option.or_some] at h2
  exact (by decide : ('t' : Char) ≠ '4') (Option.some.inj h2)

/-- `resolve` keeps the `.mp4` suffix shape. -/
theorem resolve_mp4 (t : String) : ∃ t2, resolve (t ++ ".mp4") = t2 ++ ".mp4" := by
  unfold resolve
  split
  · exact ⟨t, rfl⟩
  · exact ⟨cwd ++ "/" ++ t, (String.append_assoc (cwd ++ "/") t ".mp4").symm⟩

/-- `pyJoin` with a second component of `.mp4` shape keeps that shape. -/
theorem pyJoin_mp4 (a t : String) :
    ∃ t2, pyJoin a (t ++ ".mp4") = t2 ++ ".mp4" := by
  unfold pyJoin
  split
  · exact ⟨t, rfl⟩
  · split
    · exact ⟨t, rfl⟩
    · split
      · exact ⟨a ++ t, (String.append_assoc a t ".mp4").symm⟩
      · exact ⟨a ++ "/" ++ t, (String.append_assoc (a ++ "/") t ".mp4").symm⟩

theorem takeWhile_append_all {α} (p : α → Bool) (l1 l2 : List α)
    (h : ∀ x ∈ l1, p x = true) :
    (l1 ++ l2).takeWhile p = l1 ++ l2.takeWhile p := by
  induction l1 with
  | nil => simp
  | cons a l ih =>
    rw [List.cons_append, List.takeWhile_cons,
      if_pos (h a (List.mem_cons_self a l)), ih (fun x hx => h x (List.mem_cons_of_mem a hx)),
      List.cons_append]

theorem mem_dropWhile_of_mem {α} {p : α → Bool} {l : List α} {c : α}
    (hc : c ∈ l) (hp : p c = false) : c ∈ l.dropWhile p := by
  induction l with
  | nil => cases hc
  | cons a l ih =>
    rw [List.dropWhile_cons]
    by_cases ha : p a = true
    · rw [if_pos ha]
      rcases List.mem_cons.mp hc with h | h
      · subst h; rw [ha] at hp; cases hp
      · exact ih h
    · rw [if_neg ha]; exact hc

theorem pyStrip_ne_empty {s : String} {c : Char} (hc : c ∈ s.data)
    (hw : c.isWhitespace = false) : ¬ pyStrip s = "" := by
  intro h
  have hl : (((s.data.dropWhile Char.isWhitespace).reverse.dropWhile
      Char.isWhitespace)).reverse = [] := congrArg String.data h
  rw [List.reverse_eq_nil_iff, List.dropWhile_eq_nil_iff] at hl
  have hmem : c ∈ s.data.dropWhile Char.isWhitespace :=
    mem_dropWhile_of_mem hc hw
  have := hl c (List.mem_reverse.mpr hmem)
  rw [hw] at this
  cases this

theorem takeWhile_all {α} (p : α → Bool) (l : List α)
    (h : ∀ x ∈ l, p x = true) : l.takeWhile p = l := by
  induction l with
  | nil => rfl
  | cons a l ih =>
    rw [List.takeWhile_cons, if_pos (h a (List.mem_cons_self a l)),
      ih (fun x hx => h x (List.mem_cons_of_mem a hx))]

/-- Core of the basename computation: the part after the last slash. -/
theorem basename_core (pre bl : List Char) (hb : ∀ c ∈ bl, ¬ c = '/') :
    ((pre ++ '/' :: bl).reverse.takeWhile (fun c => ¬ (c = '/'))).reverse = bl := by
  rw [List.reverse_append, List.reverse_cons, List.append_assoc,
    takeWhile_append_all _ _ _
      (fun x hx => decide_eq_true (hb x (List.mem_reverse.mp hx)))]
  have h2 : List.takeWhile (fun c => ¬ (c = '/')) (['/'] ++ pre.reverse) = [] := by
    rw [List.singleton_append, List.takeWhile_cons, if_neg (by simp)]
  rw [h2, List.append_nil, List.reverse_reverse]

theorem basenameData_of_slashfree {b : String}
    (hb : ∀ c ∈ b.data, ¬ c = '/') : basenameData b = b.data := by
  unfold basenameData
  rw [takeWhile_all _ _
    (fun x hx => decide_eq_true (hb x (List.mem_reverse.mp hx))),
    List.reverse_reverse]

theorem mem_basenameData {p : String} {c : Char} (h : c ∈ basenameData p) :
    ¬ c = '/' := by
  unfold basenameData at h
  have h2 := List.mem_reverse.mp h
  exact of_decide_eq_true
    (@List.mem_takeWhile_imp _ (fun x => decide ¬ x = '/') p.data.reverse c h2)

/-- `basename (pyJoin a b) = b` whenever `b` has no slash in it. -/
theorem basename_pyJoin (a b : String) (hb : ∀ c ∈ b.data, ¬ c = '/') :
    basename (pyJoin a b) = b := by
  unfold basename pyJoin
  split
  · exact String.ext (basenameData_of_slashfree hb)
  · split
    · exact String.ext (basenameData_of_slashfree hb)
    · split
      case isTrue hlast =>
        apply String.ext
        show basenameData (a ++ b) = b.data
        unfold basenameData
        have hsplit : a.data.dropLast ++ ['/'] = a.data :=
          List.dropLast_append_getLast? '/' hlast
        rw [String.data_append, ← hsplit, List.append_assoc,
          List.singleton_append]
        exact basename_core _ _ hb
      case isFalse _ =>
        apply String.ext
        show basenameData (a ++ "/" ++ b) = b.data
        unfold basenameData
        rw [String.data_append, String.data_append, List.append_assoc,
          List.singleton_append]
        exact basename_core _ _ hb

/-! ### splitext helper lemmas -/

theorem splitext_snd (p : String) :
    (splitext p).2 = String.mk (splitExtBase (basenameData p)).2 := rfl

theorem basenameData_basename (v : String) :
    basenameData (basename v) = basenameData v :=
  basenameData_of_slashfree (fun _ hc => mem_basenameData hc)

theorem splitext_basename_fst (v : String) :
    (splitext (basename v)).1 = String.mk (splitExtBase (basenameData v)).1 := by
  have hd : (basename v).data = basenameData v := rfl
  simp only [splitext, hd, basenameData_basename, Nat.sub_self,
    List.take_zero, List.nil_append]

theorem splitext_basename_snd (v : String) :
    (splitext (basename v)).2 = String.mk (splitExtBase (basenameData v)).2 := by
  rw [splitext_snd, basenameData_basename]

/-- The extension produced by `splitExtBase` is empty or starts with a dot. -/
theorem splitExtBase_snd_cases (b : List Char) :
    (splitExtBase b).2 = [] ∨ ∃ r2, (splitExtBase b).2 = '.' :: r2 := by
  simp only [splitExtBase]
  split
  · exact Or.inr ⟨_, rfl⟩
  · exact Or.inl rfl

/-- If the name (after its leading dots) contains a dot, `splitExtBase`
finds a non-empty extension. -/
theorem splitExtBase_snd_ne_nil {b : List Char}
    (h : '.' ∈ b.dropWhile (fun c => c = '.')) : (splitExtBase b).2 ≠ [] := by
  simp only [splitExtBase]
  rw [if_pos (List.any_eq_true.mpr ⟨'.', h, by simp⟩)]
  simp

/-- Characters of the root part of `splitExtBase` come from the input. -/
theorem splitExtBase_fst_subset {b : List Char} {c : Char}
    (h : c ∈ (splitExtBase b).1) : c ∈ b := by
  simp only [splitExtBase] at h
  split at h
  · exact List.take_subset _ _ h
  · exact h

/-- Characters of the extension part of `splitExtBase` are a dot or come
from the input. -/
theorem splitExtBase_snd_subset {b : List Char} {c : Char}
    (h : c ∈ (splitExtBase b).2) : c = '.' ∨ c ∈ b := by
  simp only [splitExtBase] at h
  split at h
  · rcases List.mem_cons.mp h with h1 | h1
    · exact Or.inl h1
    · refine Or.inr ?h
      have h2 := List.mem_reverse.mp h1
      have h3 := List.mem_takeWhile_imp h2
      have h4 : c ∈ (b.dropWhile (fun c => c = '.')).reverse :=
        List.takeWhile_subset _ h2
      exact List.dropWhile_subset _ (List.mem_reverse.mp h4)
  · cases h

/-! ### The auto-derived output path of add_audio_to_video -/

/-- The output path the spec's derivation rule describes: the video's
directory joined with the video's base name suffixed by `_with_audio` and
the video's own extension. -/
def derivedOutput (v : String) : String :=
  pyJoin (dirname v)
    ((splitext (basename v)).1 ++ "_with_audio" ++ (splitext (basename v)).2)

theorem derived_base_data (v : String) :
    ((splitext (basename v)).1 ++ "_with_audio" ++
        (splitext (basename v)).2).data =
      (splitExtBase (basenameData v)).1 ++
        ("_with_audio".data ++ (splitExtBase (basenameData v)).2) := by
  rw [splitext_basename_fst, splitext_basename_snd, String.data_append,
    String.data_append, List.append_assoc]

theorem derived_base_slashfree (v : String) :
    ∀ c ∈ ((splitext (basename v)).1 ++ "_with_audio" ++
      (splitext (basename v)).2).data, ¬ c = '/' := by
  intro c hc
  rw [derived_base_data] at hc
  rcases List.mem_append.mp hc with h | h
  · exact mem_basenameData (splitExtBase_fst_subset h)
  · rcases List.mem_append.mp h with h1 | h1
    · revert h1
      have : ∀ x ∈ "_with_audio".data, ¬ x = '/' := by decide
      exact this c
    · rcases splitExtBase_snd_subset h1 with h2 | h2
      · subst h2; decide
      · exact mem_basenameData h2

theorem underscore_mem_derived (v : String) :
    '_' ∈ (derivedOutput v).data := by
  unfold derivedOutput pyJoin
  have hmem : '_' ∈ ((splitext (basename v)).1 ++ "_with_audio" ++
      (splitext (basename v)).2).data := by
    rw [derived_base_data]
    exact List.mem_append.mpr (Or.inr (List.mem_append.mpr
      (Or.inl (by decide))))
  split
  · exact hmem
  · split
    · exact hmem
    · split
      · rw [String.data_append]; exact List.mem_append.mpr (Or.inr hmem)
      · rw [String.data_append]; exact List.mem_append.mpr (Or.inr hmem)

theorem pyStrip_derived_ne (v : String) : ¬ pyStrip (derivedOutput v) = "" :=
  pyStrip_ne_empty (underscore_mem_derived v) (by decide)

/-- If the derived output path has no extension then the video itself had
no extension (so the later "inherit the video's extension" step appends
nothing). -/
theorem derived_ext_empty (v : String)
    (h : (splitext (derivedOutput v)).2 = "") : (splitext v).2 = "" := by
  rcases splitExtBase_snd_cases (basenameData v) with hc | ⟨r2, hc⟩
  · rw [splitext_snd, hc]
  · exfalso
    have hbase : basenameData (derivedOutput v) =
        ((splitext (basename v)).1 ++ "_with_audio" ++
          (splitext (basename v)).2).data :=
      congrArg String.data
        (basename_pyJoin (dirname v) _ (derived_base_slashfree v))
    rw [splitext_snd, hbase, derived_base_data, hc] at h
    have hne := @splitExtBase_snd_ne_nil
      ((splitExtBase (basenameData v)).1 ++
        ("_with_audio".data ++ '.' :: r2))
      (by
        rw [← List.append_assoc, List.dropWhile_append]
        split
        case isTrue hemp =>
          exfalso
          have hnil := List.isEmpty_iff.mp hemp
          have hall := List.dropWhile_eq_nil_iff.mp hnil
          have hu : '_' ∈ (splitExtBase (basenameData v)).1 ++
              "_with_audio".data :=
            List.mem_append.mpr (Or.inr (by decide))
          have := hall '_' hu
          simp at this
        case isFalse _ =>
          exact List.mem_append.mpr (Or.inr (List.mem_cons_self _ _)))
    have hdata := congrArg String.data h
    exact hne hdata

/-- Lines 42-46: with no output path (or a whitespace-only one), the
chosen path is the derived one, and the extension-inheritance step keeps
it unchanged. -/
theorem resolveOutputPath_none (v : String) :
    resolveOutputPath v none = some (derivedOutput v) := by
  simp only [resolveOutputPath]
  have hD : pyJoin (dirname v) ((splitext (basename v)).1 ++ "_with_audio" ++
      (splitext (basename v)).2) = derivedOutput v := rfl
  rw [hD, if_neg (pyStrip_derived_ne v)]
  split
  case isTrue h => rw [derived_ext_empty v h, String.append_empty]
  case isFalse _ => rfl

theorem resolveOutputPath_blank (v s : String) (hs : pyStrip s = "") :
    resolveOutputPath v (some s) = some (derivedOutput v) := by
  simp only [resolveOutputPath]
  have hD : pyJoin (dirname v) ((splitext (basename v)).1 ++ "_with_audio" ++
      (splitext (basename v)).2) = derivedOutput v := rfl
  rw [if_pos hs, hD, if_neg (pyStrip_derived_ne v)]
  split
  case isTrue h => rw [derived_ext_empty v h, String.append_empty]
  case isFalse _ => rfl

/-- Lines 53-57: a supplied output path without an extension inherits the
video's extension. -/
theorem resolveOutputPath_noext (v s : String) (hs : ¬ pyStrip s = "")
    (hext : (splitext s).2 = "") :
    resolveOutputPath v (some s) = some (s ++ (splitext v).2) := by
  simp only [resolveOutputPath]
  rw [if_neg hs, if_neg hs, if_pos hext]

/-! ### Download and download-loop lemmas -/

/-- A fetch of `u` against the HTTP oracle `h` succeeds and yields a
non-empty file: the status is 200 and the body is non-empty. -/
def fetchOK (h : String → Option HttpResponse) (u : String) : Bool :=
  match h u with
  | none => false
  | some r => r.status == 200 && !(r.content.length == 0)

theorem download_video_true {url p : String} {w w' : World}
    (h : download_video url p w = (true, w')) :
    ∃ r, w.http url = some r ∧ r.status = 200 ∧
      w' = fsWrite { w with fetchLog := w.fetchLog ++ [url] }
        (resolve p) r.content := by
  unfold download_video at h
  rcases hh : w.http url with _ | r <;> simp only [hh] at h
  · simp at h
  · by_cases hs : r.status = 200
    · rw [if_neg (by simp [hs])] at h
      exact ⟨r, rfl, hs, ((Prod.mk.injEq _ _ _ _).mp h).2.symm⟩
    · rw [if_pos hs] at h
      simp at h

theorem download_video_false {url p : String} {w w' : World}
    (h : download_video url p w = (false, w')) :
    w' = { w with fetchLog := w.fetchLog ++ [url] } ∧
      (w.http url = none ∨ ∃ r, w.http url = some r ∧ r.status ≠ 200) := by
  unfold download_video at h
  rcases hh : w.http url with _ | r <;> simp only [hh] at h
  · exact ⟨(((Prod.mk.injEq _ _ _ _).mp h).2).symm, Or.inl rfl⟩
  · by_cases hs : r.status = 200
    · rw [if_neg (by simp [hs])] at h
      simp at h
    · rw [if_pos hs] at h
      exact ⟨(((Prod.mk.injEq _ _ _ _).mp h).2).symm, Or.inr ⟨r, rfl, hs⟩⟩

/-- The local clip filename has the `.mp4` shape, also after `resolve`. -/
theorem resolve_clipPath_mp4 (videosDir : String) (i : Nat) :
    ∃ t, resolve (clipPath videosDir i) = t ++ ".mp4" :=
  resolve_mp4 (videosDir ++ "/video_" ++ pad3 (i + 1))

/-- Inversion of a successful download loop: the returned clip paths are
the sequentially numbered ones in URL order, the environment oracles and
the uuid counter are untouched, every URL was attempted in order, every
clip file exists non-empty afterwards, and the loop only wrote `.mp4`
files (preserving every non-empty file). -/
theorem downloadLoop_ok (videosDir : String) (urls : List String) :
    ∀ (i : Nat) (w : World) (ps : List String) (w1 : World),
    downloadLoop videosDir urls i w = (Except.ok ps, w1) →
    ps = (List.range urls.length).map (fun j => clipPath videosDir (i + j)) ∧
    w1.http = w.http ∧ w1.ffmpeg = w.ffmpeg ∧ w1.uuidStream = w.uuidStream ∧
    w1.removeRaises = w.removeRaises ∧ w1.nextUuid = w.nextUuid ∧
    w1.ffmpegCalls = w.ffmpegCalls ∧ w1.removeLog = w.removeLog ∧
    w1.fetchLog = w.fetchLog ++ urls ∧
    (∀ q c, w.fs q = some c → c.length ≠ 0 →
      ∃ c2, w1.fs q = some c2 ∧ c2.length ≠ 0) ∧
    (∀ j, j < urls.length →
      ∃ c, w1.fs (resolve (clipPath videosDir (i + j))) = some c ∧
        c.length ≠ 0) ∧
    (∀ q, w1.fs q = w.fs q ∨ ∃ t, q = t ++ ".mp4") := by
  induction urls with
  | nil =>
    intro i w ps w1 h
    simp only [downloadLoop, Prod.mk.injEq] at h
    obtain ⟨h1, h2⟩ := h
    subst h2
    refine ⟨by simpa using (Except.ok.inj h1).symm, rfl, rfl, rfl, rfl, rfl,
      rfl, rfl, by simp, fun q c hq hc => ⟨c, hq, hc⟩, by simp,
      fun q => Or.inl rfl⟩
  | cons url rest ih =>
    intro i w ps w1 h
    simp only [downloadLoop] at h
    rcases hdl : download_video url (clipPath videosDir i) w with ⟨b, w'⟩
    simp only [hdl] at h
    cases b with
    | false => simp at h
    | true =>
      rw [if_neg (by simp : ¬ (true = false))] at h
      rcases hfs : w'.fs (resolve (clipPath videosDir i)) with _ | c <;>
        simp only [hfs] at h
      · simp at h
      · by_cases hc : c.length = 0
        · rw [if_pos hc] at h
          simp at h
        · rw [if_neg hc] at h
          rcases hrec : downloadLoop videosDir rest (i + 1) w' with ⟨r2, w2⟩
          simp only [hrec] at h
          rcases r2 with e | ps2
          · simp at h
          simp only [Prod.mk.injEq, Except.ok.injEq] at h
          obtain ⟨hps, hw⟩ := h
          obtain ⟨hps2, hhttp, hffm, huuid, hrr, hnext, hcalls, hrlog, hflog,
            hpres, hclips, hwrites⟩ := ih (i + 1) w' ps2 w2 hrec
          subst hw
          obtain ⟨r, hhr, hst, hw'⟩ := download_video_true hdl
          have hwfacts : w'.http = w.http ∧ w'.ffmpeg = w.ffmpeg ∧
              w'.uuidStream = w.uuidStream ∧ w'.removeRaises = w.removeRaises ∧
              w'.nextUuid = w.nextUuid ∧ w'.ffmpegCalls = w.ffmpegCalls ∧
              w'.removeLog = w.removeLog ∧
              w'.fetchLog = w.fetchLog ++ [url] := by
            rw [hw']; simp [fsWrite]
          have hwfs : ∀ q, w'.fs q =
              if q = resolve (clipPath videosDir i) then some r.content
              else w.fs q := by
            intro q; rw [hw']; simp [fsWrite]
          refine ⟨?hps, ?hhttp, ?hffm, ?huuid, ?hrr, ?hnext, ?hcalls, ?hrlog,
            ?hflog, ?hpres, ?hclips, ?hwrites⟩
          case hps =>
            rw [← hps, hps2, List.length_cons, List.range_succ_eq_map,
              List.map_cons, List.map_map]
            refine congrArg₂ List.cons (by rw [Nat.add_zero]) ?h2
            exact List.map_congr_left
              (fun j _ => congrArg (clipPath videosDir) (by omega))
          case hhttp => rw [hhttp, hwfacts.1]
          case hffm => rw [hffm, hwfacts.2.1]
          case huuid => rw [huuid, hwfacts.2.2.1]
          case hrr => rw [hrr, hwfacts.2.2.2.1]
          case hnext => rw [hnext, hwfacts.2.2.2.2.1]
          case hcalls => rw [hcalls, hwfacts.2.2.2.2.2.1]
          case hrlog => rw [hrlog, hwfacts.2.2.2.2.2.2.1]
          case hflog =>
            rw [hflog, hwfacts.2.2.2.2.2.2.2, List.append_assoc,
              List.singleton_append]
          case hpres =>
            intro q c0 hq hc0
            rcases hq2 : w'.fs q with _ | c1
            · rw [hwfs q] at hq2
              split at hq2
              · cases hq2
              · rw [hq] at hq2; cases hq2
            · have hc1 : c1.length ≠ 0 := by
                rw [hwfs q] at hq2
                split at hq2
                case isTrue hqe =>
                  subst hqe
                  rw [hwfs _] at hfs
                  rw [if_pos rfl] at hfs
                  have : c = r.content := (Option.some.inj hfs).symm
                  rw [Option.some.injEq] at hq2
                  rw [← hq2, ← this]
                  exact hc
                case isFalse _ =>
                  rw [hq] at hq2
                  rw [← Option.some.inj hq2]
                  exact hc0
              exact hpres q c1 hq2 hc1
          case hclips =>
            intro j hj
            cases j with
            | zero =>
              have := hpres (resolve (clipPath videosDir i)) c hfs hc
              rw [Nat.add_zero]
              exact this
            | succ j2 =>
              rw [List.length_cons] at hj
              have h2 := hclips j2 (by omega)
              have harith : i + 1 + j2 = i + (j2 + 1) := by omega
              rw [harith] at h2
              exact h2
          case hwrites =>
            intro q
            rcases hwrites q with h2 | h2
            · rw [h2, hwfs q]
              split
              case isTrue hqe =>
                exact Or.inr (by rw [hqe]; exact resolve_clipPath_mp4 _ _)
              case isFalse _ => exact Or.inl rfl
            · exact Or.inr h2

/-- Whatever its outcome, the download loop leaves every oracle, the uuid
counter, the ffmpeg trace and the remove trace untouched, and only writes
`.mp4` files. -/
theorem downloadLoop_pres (videosDir : String) (urls : List String) :
    ∀ (i : Nat) (w : World) (r : Except String (List String)) (w1 : World),
    downloadLoop videosDir urls i w = (r, w1) →
    w1.http = w.http ∧ w1.ffmpeg = w.ffmpeg ∧ w1.uuidStream = w.uuidStream ∧
    w1.removeRaises = w.removeRaises ∧ w1.nextUuid = w.nextUuid ∧
    w1.ffmpegCalls = w.ffmpegCalls ∧ w1.removeLog = w.removeLog ∧
    (∀ q, w1.fs q = w.fs q ∨ ∃ t, q = t ++ ".mp4") := by
  induction urls with
  | nil =>
    intro i w r w1 h
    simp only [downloadLoop, Prod.mk.injEq] at h
    obtain ⟨_, h2⟩ := h
    subst h2
    exact ⟨rfl, rfl, rfl, rfl, rfl, rfl, rfl, fun q => Or.inl rfl⟩
  | cons url rest ih =>
    intro i w r w1 h
    simp only [downloadLoop] at h
    rcases hdl : download_video url (clipPath videosDir i) w with ⟨b, w'⟩
    simp only [hdl] at h
    have hw' : w'.http = w.http ∧ w'.ffmpeg = w.ffmpeg ∧
        w'.uuidStream = w.uuidStream ∧ w'.removeRaises = w.removeRaises ∧
        w'.nextUuid = w.nextUuid ∧ w'.ffmpegCalls = w.ffmpegCalls ∧
        w'.removeLog = w.removeLog ∧
        (∀ q, w'.fs q = w.fs q ∨ ∃ t, q = t ++ ".mp4") := by
      cases b with
      | false =>
        obtain ⟨he, _⟩ := download_video_false hdl
        subst he
        exact ⟨rfl, rfl, rfl, rfl, rfl, rfl, rfl, fun q => Or.inl rfl⟩
      | true =>
        obtain ⟨r0, _, _, he⟩ := download_video_true hdl
        subst he
        refine ⟨rfl, rfl, rfl, rfl, rfl, rfl, rfl, ?hfs2⟩
        intro q
        show (if q = resolve (clipPath videosDir i) then some r0.content
          else w.fs q) = w.fs q ∨ ∃ t, q = t ++ ".mp4"
        split
        case isTrue hqe =>
          exact Or.inr (by rw [hqe]; exact resolve_clipPath_mp4 _ _)
        case isFalse _ => exact Or.inl rfl
    have step : ∀ (w2 : World), w1 = w2 →
        (w2.http = w'.http ∧ w2.ffmpeg = w'.ffmpeg ∧
          w2.uuidStream = w'.uuidStream ∧ w2.removeRaises = w'.removeRaises ∧
          w2.nextUuid = w'.nextUuid ∧ w2.ffmpegCalls = w'.ffmpegCalls ∧
          w2.removeLog = w'.removeLog ∧
          (∀ q, w2.fs q = w'.fs q ∨ ∃ t, q = t ++ ".mp4")) →
        w1.http = w.http ∧ w1.ffmpeg = w.ffmpeg ∧
          w1.uuidStream = w.uuidStream ∧ w1.removeRaises = w.removeRaises ∧
          w1.nextUuid = w.nextUuid ∧ w1.ffmpegCalls = w.ffmpegCalls ∧
          w1.removeLog = w.removeLog ∧
          (∀ q, w1.fs q = w.fs q ∨ ∃ t, q = t ++ ".mp4") := by
      rintro w2 rfl ⟨a1, a2, a3, a4, a5, a6, a7, a8⟩
      refine ⟨a1.trans hw'.1, a2.trans hw'.2.1, a3.trans hw'.2.2.1,
        a4.trans hw'.2.2.2.1, a5.trans hw'.2.2.2.2.1,
        a6.trans hw'.2.2.2.2.2.1, a7.trans hw'.2.2.2.2.2.2.1, fun q => ?hq⟩
      rcases a8 q with h8 | h8
      · rw [h8]; exact hw'.2.2.2.2.2.2.2 q
      · exact Or.inr h8
    cases b with
    | false =>
      rw [if_pos rfl] at h
      obtain ⟨_, h2⟩ := (Prod.mk.injEq _ _ _ _).mp h
      exact step w' h2.symm ⟨rfl, rfl, rfl, rfl, rfl, rfl, rfl,
        fun q => Or.inl rfl⟩
    | true =>
      rw [if_neg (by simp : ¬ (true = false))] at h
      rcases hfs : w'.fs (resolve (clipPath videosDir i)) with _ | c <;>
        simp only [hfs] at h
      · obtain ⟨_, h2⟩ := (Prod.mk.injEq _ _ _ _).mp h
        exact step w' h2.symm ⟨rfl, rfl, rfl, rfl, rfl, rfl, rfl,
          fun q => Or.inl rfl⟩
      · by_cases hc : c.length = 0
        · rw [if_pos hc] at h
          obtain ⟨_, h2⟩ := (Prod.mk.injEq _ _ _ _).mp h
          exact step w' h2.symm ⟨rfl, rfl, rfl, rfl, rfl, rfl, rfl,
            fun q => Or.inl rfl⟩
        · rw [if_neg hc] at h
          rcases hrec : downloadLoop videosDir rest (i + 1) w' with ⟨r2, w2⟩
          simp only [hrec] at h
          have hih := ih (i + 1) w' r2 w2 hrec
          rcases r2 with e | ps2 <;>
            obtain ⟨_, h2⟩ := (Prod.mk.injEq _ _ _ _).mp h <;>
            exact step w2 h2.symm
              ⟨hih.1, hih.2.1, hih.2.2.1, hih.2.2.2.1, hih.2.2.2.2.1,
                hih.2.2.2.2.2.1, hih.2.2.2.2.2.2.1, hih.2.2.2.2.2.2.2⟩

/-- Fail-fast: if the k-th URL is the first whose fetch goes wrong (bad
download, or empty body), the loop stops there with the corresponding
error message, having attempted exactly the first k+1 URLs. -/
theorem downloadLoop_err (videosDir : String) :
    ∀ (k : Nat) (urls : List String) (i : Nat) (w : World) (u : String),
    urls.get? k = some u →
    (∀ j u2, j < k → urls.get? j = some u2 → fetchOK w.http u2 = true) →
    fetchOK w.http u = false →
    ∃ e w1, downloadLoop videosDir urls i w = (Except.error e, w1) ∧
      (e = "Failed to download video " ++ toString (i + k + 1) ++
          " from URL: " ++ u ∨
        e = "Downloaded video file " ++ toString (i + k + 1) ++
          " is missing or empty") ∧
      w1.fetchLog = w.fetchLog ++ urls.take (k + 1) ∧
      w1.http = w.http ∧ w1.ffmpegCalls = w.ffmpegCalls := by
  intro k
  induction k with
  | zero =>
    intro urls i w u hget hpre hbad
    rcases urls with _ | ⟨u0, rest⟩
    · simp at hget
    · obtain rfl : u0 = u := Option.some.inj hget
      unfold fetchOK at hbad
      rcases hh : w.http u0 with _ | r <;> simp only [hh] at hbad
      · have hdl : download_video u0 (clipPath videosDir i) w =
            (false, { w with fetchLog := w.fetchLog ++ [u0] }) := by
          unfold download_video
          simp only [hh]
        simp only [downloadLoop, hdl]
        simp only [if_true]
        exact ⟨_, _, rfl, Or.inl (by rw [Nat.add_zero]),
          by simp, rfl, rfl⟩
      · by_cases hs : r.status = 200
        · have hc : r.content.length = 0 := by
            simp [hs] at hbad; exact hbad
          have hdl : download_video u0 (clipPath videosDir i) w =
              (true, fsWrite { w with fetchLog := w.fetchLog ++ [u0] }
                (resolve (clipPath videosDir i)) r.content) := by
            unfold download_video
            simp only [hh]
            rw [if_neg (by simp [hs])]
          simp only [downloadLoop, hdl]
          have hkey : (fsWrite { w with fetchLog := w.fetchLog ++ [u0] }
              (resolve (clipPath videosDir i)) r.content).fs
                (resolve (clipPath videosDir i)) = some r.content := by
            simp [fsWrite]
          simp only [hkey]
          rw [if_pos hc]
          refine ⟨_, _, rfl, Or.inr (by rw [Nat.add_zero]), ?hlog, ?hh2, ?hc2⟩
          case hlog => simp [fsWrite]
          case hh2 => simp [fsWrite]
          case hc2 => simp [fsWrite]
        · have hdl : download_video u0 (clipPath videosDir i) w =
              (false, { w with fetchLog := w.fetchLog ++ [u0] }) := by
            unfold download_video
            simp only [hh]
            rw [if_pos hs]
          simp only [downloadLoop, hdl]
          simp only [if_true]
          exact ⟨_, _, rfl, Or.inl (by rw [Nat.add_zero]),
            by simp, rfl, rfl⟩
  | succ k2 ih =>
    intro urls i w u hget hpre hbad
    rcases urls with _ | ⟨u0, rest⟩
    · simp at hget
    · have hu0 : fetchOK w.http u0 = true := hpre 0 u0 (Nat.succ_pos k2) rfl
      unfold fetchOK at hu0
      rcases hh : w.http u0 with _ | r <;> simp only [hh] at hu0
      · cases hu0
      · rw [Bool.and_eq_true] at hu0
        have hs : r.status = 200 := by simpa using hu0.1
        have hc : ¬ r.content.length = 0 := by simpa using hu0.2
        have hdl : download_video u0 (clipPath videosDir i) w =
            (true, fsWrite { w with fetchLog := w.fetchLog ++ [u0] }
              (resolve (clipPath videosDir i)) r.content) := by
          unfold download_video
          simp only [hh]
          rw [if_neg (by simp [hs])]
        simp only [downloadLoop, hdl]
        have hkey : (fsWrite { w with fetchLog := w.fetchLog ++ [u0] }
            (resolve (clipPath videosDir i)) r.content).fs
              (resolve (clipPath videosDir i)) = some r.content := by
          simp [fsWrite]
        simp only [hkey]
        rw [if_neg hc]
        have hhttp' : (fsWrite { w with fetchLog := w.fetchLog ++ [u0] }
            (resolve (clipPath videosDir i)) r.content).http = w.http := by
          simp [fsWrite]
        obtain ⟨e, w1, hloop, hmsg, hflog, hhttp1, hcalls1⟩ :=
          ih rest (i + 1)
            (fsWrite { w with fetchLog := w.fetchLog ++ [u0] }
              (resolve (clipPath videosDir i)) r.content) u
            hget
            (fun j u2 hj hg => by
              rw [hhttp']
              exact hpre (j + 1) u2 (by omega) hg)
            (by rw [hhttp']; exact hbad)
        simp only [hloop]
        refine ⟨e, w1, rfl, ?hmsg2, ?hlog2, ?hh3, ?hc3⟩
        case hmsg2 =>
          have harith : i + 1 + k2 + 1 = i + (k2 + 1) + 1 := by omega
          rw [harith] at hmsg
          exact hmsg
        case hlog2 =>
          rw [hflog]
          have : (fsWrite { w with fetchLog := w.fetchLog ++ [u0] }
              (resolve (clipPath videosDir i)) r.content).fetchLog =
            w.fetchLog ++ [u0] := by simp [fsWrite]
          rw [this, List.append_assoc, List.singleton_append,
            List.take_succ_cons]
        case hh3 => rw [hhttp1, hhttp']
        case hc3 =>
          rw [hcalls1]
          simp [fsWrite]

/-- If every URL fetch succeeds with a non-empty body, the loop succeeds. -/
theorem downloadLoop_succeeds (videosDir : String) (urls : List String) :
    ∀ (i : Nat) (w : World),
    (∀ u ∈ urls, fetchOK w.http u = true) →
    ∃ ps w1, downloadLoop videosDir urls i w = (Except.ok ps, w1) := by
  induction urls with
  | nil => exact fun i w _ => ⟨[], w, rfl⟩
  | cons url rest ih =>
    intro i w hall
    have hu := hall url (List.mem_cons_self _ _)
    unfold fetchOK at hu
    rcases hh : w.http url with _ | r <;> simp only [hh] at hu
    · cases hu
    · rw [Bool.and_eq_true] at hu
      have hs : r.status = 200 := by simpa using hu.1
      have hc : ¬ r.content.length = 0 := by simpa using hu.2
      have hdl : download_video url (clipPath videosDir i) w =
          (true, fsWrite { w with fetchLog := w.fetchLog ++ [url] }
            (resolve (clipPath videosDir i)) r.content) := by
        unfold download_video
        simp only [hh]
        rw [if_neg (by simp [hs])]
      simp only [downloadLoop, hdl]
      have hkey : (fsWrite { w with fetchLog := w.fetchLog ++ [url] }
          (resolve (clipPath videosDir i)) r.content).fs
            (resolve (clipPath videosDir i)) = some r.content := by
        simp [fsWrite]
      simp only [hkey]
      rw [if_neg hc]
      obtain ⟨ps, w1, hrec⟩ := ih (i + 1)
        (fsWrite { w with fetchLog := w.fetchLog ++ [url] }
          (resolve (clipPath videosDir i)) r.content)
        (fun u2 hu2 => by
          have : (fsWrite { w with fetchLog := w.fetchLog ++ [url] }
              (resolve (clipPath videosDir i)) r.content).http = w.http := by
            simp [fsWrite]
          rw [this]
          exact hall u2 (List.mem_cons_of_mem _ hu2))
      simp only [hrec]
      exact ⟨_, _, rfl⟩

/-! ### combine_videos lemmas -/

/-- The name of the list file `combine_videos` creates when run in world
`w` (the next fresh uuid under the temp directory). -/
def lfOf (w : World) : String :=
  cwd ++ "/temp/video_list_" ++ w.uuidStream w.nextUuid ++ ".txt"

theorem validateInputs_true_iff (w : World) (paths : List String) :
    validateInputs w paths = true ↔
      ∀ p ∈ paths, ∃ c, w.fs (resolve p) = some c ∧ c.length ≠ 0 := by
  induction paths with
  | nil => simp [validateInputs]
  | cons p ps ih =>
    simp only [validateInputs]
    rcases hp : w.fs (resolve p) with _ | c
    · simp only [List.mem_cons]
      constructor
      · intro h; cases h
      · intro h
        obtain ⟨c, hc, _⟩ := h p (Or.inl rfl)
        rw [hp] at hc; cases hc
    · show (if c.length = 0 then false else validateInputs w ps) = true ↔
        ∀ q ∈ p :: ps, ∃ c2, w.fs (resolve q) = some c2 ∧ c2.length ≠ 0
      by_cases hc : c.length = 0
      · rw [if_pos hc]
        constructor
        · intro h; cases h
        · intro h
          obtain ⟨c2, hc2, hne⟩ := h p (List.mem_cons_self _ _)
          rw [hp] at hc2
          rw [← Option.some.inj hc2] at hne
          exact absurd hc hne
      · rw [if_neg hc, ih]
        constructor
        · intro h q hq
          rcases List.mem_cons.mp hq with rfl | hq2
          · exact ⟨c, hp, hc⟩
          · exact h q hq2
        · intro h q hq
          exact h q (List.mem_cons_of_mem _ hq)

theorem manifestContent_ne {paths : List String} (h : paths ≠ []) :
    (manifestContent paths).length ≠ 0 := by
  rcases paths with _ | ⟨p, ps⟩
  · exact absurd rfl h
  · show (manifestLine p ++ manifestContent ps).length ≠ 0
    rw [String.length_append]
    have : (manifestLine p).length ≠ 0 := by
      show ("file " ++ squote ++ resolve p ++ squote ++ "\n").length ≠ 0
      rw [String.length_append, String.length_append, String.length_append,
        String.length_append]
      have h5 : "file ".length = 5 := rfl
      have h1 : squote.length = 1 := rfl
      have hn : "\n".length = 1 := rfl
      omega
    omega

/-- What the protected cleanup of the list file does to the world. -/
theorem cleanupListFile_facts (w : World) (lf : String) :
    ((cleanupListFile w lf).ffmpegCalls = w.ffmpegCalls) ∧
    ((cleanupListFile w lf).http = w.http) ∧
    ((cleanupListFile w lf).removeRaises = w.removeRaises) ∧
    ((cleanupListFile w lf).uuidStream = w.uuidStream) ∧
    ((cleanupListFile w lf).nextUuid = w.nextUuid) ∧
    ((cleanupListFile w lf).fetchLog = w.fetchLog) ∧
    ((cleanupListFile w lf).ffmpeg = w.ffmpeg) ∧
    ((cleanupListFile w lf).removeLog = w.removeLog ∨
      (cleanupListFile w lf).removeLog = w.removeLog ++ [lf]) ∧
    (∀ q, q ≠ lf → (cleanupListFile w lf).fs q = w.fs q) ∧
    (w.removeRaises lf = false → (cleanupListFile w lf).fs lf = none) := by
  rcases hm : w.fs lf with _ | c
  · have hcl : cleanupListFile w lf = w := by
      simp only [cleanupListFile, hm]
    rw [hcl]
    exact ⟨rfl, rfl, rfl, rfl, rfl, rfl, rfl, Or.inl rfl,
      fun q _ => rfl, fun _ => hm⟩
  · by_cases hr : w.removeRaises lf = true
    · have hcl : cleanupListFile w lf = w := by
        simp only [cleanupListFile, hm]
        rw [if_pos hr]
      rw [hcl]
      refine ⟨rfl, rfl, rfl, rfl, rfl, rfl, rfl, Or.inl rfl,
        fun q _ => rfl, fun hfalse => ?hcontra⟩
      rw [hr] at hfalse; cases hfalse
    · have hcl : cleanupListFile w lf = fsRemoveRaw w lf := by
        simp only [cleanupListFile, hm]
        rw [if_neg hr]
      rw [hcl]
      refine ⟨rfl, rfl, rfl, rfl, rfl, rfl, rfl, Or.inr rfl,
        fun q hq => ?hq2, fun _ => ?hnone⟩
      · show (if q = lf then none else w.fs q) = w.fs q
        rw [if_neg hq]
      · show (if lf = lf then none else w.fs lf) = none
        rw [if_pos rfl]

theorem combine_videos_validateFalse {paths : List String} {out : String}
    {w : World} (h : validateInputs w paths = false) :
    combine_videos paths out w = (false, w) := by
  unfold combine_videos
  rw [if_pos h]

/-- Characterisation of a `combine_videos` run past input validation: the
manifest is written, exactly one ffmpeg invocation happens, on the
filesystem holding the manifest, and success is equivalent to exit code 0
plus a non-empty output file; the list file is removed afterwards (unless
removal raises), the other oracles are untouched and one uuid is used. -/
theorem combine_videos_spec (paths : List String) (out : String) (w : World)
    (hval : validateInputs w paths = true)
    (hm : (manifestContent paths).length ≠ 0) :
    ∃ call : FfmpegCall,
      (combine_videos paths out w).2.ffmpegCalls =
        w.ffmpegCalls ++ [call] ∧
      call.cmd = ffmpegConcatCmd (lfOf w) out ∧
      call.fsBefore = (fsWrite { w with nextUuid := w.nextUuid + 1 }
        (lfOf w) (manifestContent paths)).fs ∧
      ((combine_videos paths out w).1 = true ↔
        (call.rc = 0 ∧
          ∃ c, call.fsAfter (resolve out) = some c ∧ c.length ≠ 0)) ∧
      (w.removeRaises (lfOf w) = false →
        (combine_videos paths out w).2.fs (lfOf w) = none) ∧
      ((combine_videos paths out w).2.removeLog = w.removeLog ∨
        (combine_videos paths out w).2.removeLog =
          w.removeLog ++ [lfOf w]) ∧
      (combine_videos paths out w).2.http = w.http ∧
      (combine_videos paths out w).2.removeRaises = w.removeRaises ∧
      (combine_videos paths out w).2.uuidStream = w.uuidStream ∧
      (combine_videos paths out w).2.nextUuid = w.nextUuid + 1 ∧
      (combine_videos paths out w).2.fetchLog = w.fetchLog ∧
      (∀ q, q ≠ lfOf w → (combine_videos paths out w).2.fs q =
        call.fsAfter q) := by
  have hcv : combine_videos paths out w =
      (let u := w.uuidStream w.nextUuid
       let w1 := { w with nextUuid := w.nextUuid + 1 }
       let lf := cwd ++ "/temp/video_list_" ++ u ++ ".txt"
       let w2 := fsWrite w1 lf (manifestContent paths)
       let r := runFfmpeg w2 (ffmpegConcatCmd lf out)
       let w3 := r.2
       if r.1.1 ≠ 0 then (false, cleanupListFile w3 lf)
       else
         match w3.fs (resolve out) with
         | none => (false, cleanupListFile w3 lf)
         | some c =>
           if c.length = 0 then (false, cleanupListFile w3 lf)
           else (true, cleanupListFile w3 lf)) := by
    unfold combine_videos
    rw [if_neg (by simp [hval])]
    have hlfval : (fsWrite { w with nextUuid := w.nextUuid + 1 }
        (cwd ++ "/temp/video_list_" ++ w.uuidStream w.nextUuid ++ ".txt")
        (manifestContent paths)).fs
          (cwd ++ "/temp/video_list_" ++ w.uuidStream w.nextUuid ++ ".txt") =
        some (manifestContent paths) := by
      simp [fsWrite]
    simp only [hlfval]
    rw [if_neg hm]
  simp only [] at hcv
  simp only [lfOf]
  rcases hor : (fsWrite { w with nextUuid := w.nextUuid + 1 } (cwd ++ "/temp/video_list_" ++ w.uuidStream w.nextUuid ++ ".txt")
        (manifestContent paths)).ffmpeg
      (ffmpegConcatCmd (cwd ++ "/temp/video_list_" ++ w.uuidStream w.nextUuid ++ ".txt") out)
      (fsWrite { w with nextUuid := w.nextUuid + 1 } (cwd ++ "/temp/video_list_" ++ w.uuidStream w.nextUuid ++ ".txt")
        (manifestContent paths)).fs with ⟨rc, st, fsA⟩
  simp only [runFfmpeg, hor] at hcv
  have h2nd : (combine_videos paths out w).2 =
      cleanupListFile
        { fsWrite { w with nextUuid := w.nextUuid + 1 } (cwd ++ "/temp/video_list_" ++ w.uuidStream w.nextUuid ++ ".txt")
            (manifestContent paths) with
          fs := fsA,
          ffmpegCalls := (fsWrite { w with nextUuid := w.nextUuid + 1 }
            (cwd ++ "/temp/video_list_" ++ w.uuidStream w.nextUuid ++ ".txt") (manifestContent paths)).ffmpegCalls ++
            [{ cmd := ffmpegConcatCmd (cwd ++ "/temp/video_list_" ++ w.uuidStream w.nextUuid ++ ".txt") out,
               fsBefore := (fsWrite { w with nextUuid := w.nextUuid + 1 }
                 (cwd ++ "/temp/video_list_" ++ w.uuidStream w.nextUuid ++ ".txt") (manifestContent paths)).fs,
               rc := rc, stderr := st, fsAfter := fsA }] } (cwd ++ "/temp/video_list_" ++ w.uuidStream w.nextUuid ++ ".txt") := by
    rw [hcv]
    by_cases hrc : ¬ rc = 0
    · rw [if_pos hrc]
    · rw [if_neg hrc]
      rcases h3 : fsA (resolve out) with _ | c <;> simp only [h3]
      by_cases hc : c.length = 0
      · rw [if_pos hc]
      · rw [if_neg hc]
  have h1st : ((combine_videos paths out w).1 = true ↔
      (rc = 0 ∧ ∃ c, fsA (resolve out) = some c ∧ c.length ≠ 0)) := by
    rw [hcv]
    by_cases hrc : ¬ rc = 0
    · rw [if_pos hrc]
      simp only [Bool.false_eq_true, false_iff]
      intro hcontra
      exact hrc hcontra.1
    · rw [if_neg hrc]
      rcases h3 : fsA (resolve out) with _ | c <;> simp only [h3]
      · simp only [Bool.false_eq_true, false_iff]
        rintro ⟨_, c2, hc2, _⟩
        cases hc2
      · by_cases hc : c.length = 0
        · rw [if_pos hc]
          simp only [Bool.false_eq_true, false_iff]
          rintro ⟨_, c2, hc2, hne⟩
          rw [← Option.some.inj hc2] at hne
          exact hne hc
        · rw [if_neg hc]
          simp only [true_iff]
          exact ⟨not_not.mp hrc, c, rfl, hc⟩
  obtain ⟨f1, f2, f3, f4, f5, f6, f7, f8, f9, f10⟩ :=
    cleanupListFile_facts
      { fsWrite { w with nextUuid := w.nextUuid + 1 } (cwd ++ "/temp/video_list_" ++ w.uuidStream w.nextUuid ++ ".txt")
          (manifestContent paths) with
        fs := fsA,
        ffmpegCalls := (fsWrite { w with nextUuid := w.nextUuid + 1 }
          (cwd ++ "/temp/video_list_" ++ w.uuidStream w.nextUuid ++ ".txt") (manifestContent paths)).ffmpegCalls ++
          [{ cmd := ffmpegConcatCmd (cwd ++ "/temp/video_list_" ++ w.uuidStream w.nextUuid ++ ".txt") out,
             fsBefore := (fsWrite { w with nextUuid := w.nextUuid + 1 }
               (cwd ++ "/temp/video_list_" ++ w.uuidStream w.nextUuid ++ ".txt") (manifestContent paths)).fs,
             rc := rc, stderr := st, fsAfter := fsA }] } (cwd ++ "/temp/video_list_" ++ w.uuidStream w.nextUuid ++ ".txt")
  refine ⟨{ cmd := ffmpegConcatCmd (cwd ++ "/temp/video_list_" ++ w.uuidStream w.nextUuid ++ ".txt") out,
            fsBefore := (fsWrite { w with nextUuid := w.nextUuid + 1 }
              (cwd ++ "/temp/video_list_" ++ w.uuidStream w.nextUuid ++ ".txt") (manifestContent paths)).fs,
            rc := rc, stderr := st, fsAfter := fsA },
    ?hcalls, rfl, rfl, h1st, ?hnone, ?hrlog, ?hhttp, ?hrr, ?huuid,
    ?hnext, ?hflog, ?hother⟩
  case hcalls =>
    rw [h2nd, f1]
    simp [fsWrite]
  case hnone =>
    intro hfr
    rw [h2nd]
    exact f10 hfr
  case hrlog =>
    rw [h2nd]
    rcases f8 with h8 | h8
    · rw [h8]; exact Or.inl (by simp [fsWrite])
    · rw [h8]; exact Or.inr (by simp [fsWrite])
  case hhttp => rw [h2nd, f2]; simp [fsWrite]
  case hrr => rw [h2nd, f3]; simp [fsWrite]
  case huuid => rw [h2nd, f4]; simp [fsWrite]
  case hnext => rw [h2nd, f5]; simp [fsWrite]
  case hflog => rw [h2nd, f6]; simp [fsWrite]
  case hother =>
    intro q hq
    rw [h2nd, f9 q hq]

/-- With an empty input list, `combine_videos` writes an empty manifest,
rejects it (line 82's size check) and returns `False` without invoking
ffmpeg. -/
theorem combine_videos_nil (out : String) (w : World) :
    combine_videos [] out w =
      (false, cleanupListFile
        (fsWrite { w with nextUuid := w.nextUuid + 1 }
          (cwd ++ "/temp/video_list_" ++ w.uuidStream w.nextUuid ++ ".txt")
          "")
        (cwd ++ "/temp/video_list_" ++ w.uuidStream w.nextUuid ++ ".txt")) := by
  unfold combine_videos
  rw [if_neg (by simp [validateInputs])]
  have hlfval : (fsWrite { w with nextUuid := w.nextUuid + 1 }
      (cwd ++ "/temp/video_list_" ++ w.uuidStream w.nextUuid ++ ".txt")
      (manifestContent [])).fs
        (cwd ++ "/temp/video_list_" ++ w.uuidStream w.nextUuid ++ ".txt") =
      some (manifestContent []) := by
    simp [fsWrite]
  simp only [hlfval]
  rw [if_pos (by rfl : (manifestContent []).length = 0)]
  rfl

/-- The unprotected `finally` of the orchestrator, when removal does not
raise: the structured result passes through and the list file is gone. -/
theorem finallyRemove_ok (res : CombineResult) {lf : String} {w : World}
    (hrm : w.removeRaises lf = false) :
    ∃ w2, finallyRemove lf res w = (Except.ok res, w2) ∧
      w2.fs lf = none ∧
      (∀ q, q ≠ lf → w2.fs q = w.fs q) ∧
      (w2.removeLog = w.removeLog ∨ w2.removeLog = w.removeLog ++ [lf]) ∧
      w2.ffmpegCalls = w.ffmpegCalls ∧ w2.http = w.http ∧
      w2.fetchLog = w.fetchLog ∧ w2.removeRaises = w.removeRaises ∧
      w2.uuidStream = w.uuidStream ∧ w2.nextUuid = w.nextUuid := by
  unfold finallyRemove
  rcases hm : w.fs lf with _ | c <;> simp only [hm]
  · exact ⟨w, rfl, hm, fun _ _ => rfl, Or.inl rfl, rfl, rfl, rfl, rfl,
      rfl, rfl⟩
  · rw [if_neg (by rw [hrm]; exact Bool.false_ne_true)]
    refine ⟨fsRemoveRaw w lf, rfl, ?hnone, fun q hq => ?hq2, Or.inr rfl,
      rfl, rfl, rfl, rfl, rfl, rfl⟩
    · show (if lf = lf then none else w.fs lf) = none
      rw [if_pos rfl]
    · show (if q = lf then none else w.fs q) = w.fs q
      rw [if_neg hq]

/-- Whatever happens in the orchestrator's `finally`, a structured `ok`
result is the one computed by the body. -/
theorem finallyRemove_ok_inv {lf : String} {res r : CombineResult}
    {w w2 : World} (h : finallyRemove lf res w = (Except.ok r, w2)) :
    r = res := by
  unfold finallyRemove at h
  rcases hm : w.fs lf with _ | c <;> simp only [hm] at h
  · exact (Except.ok.inj ((Prod.mk.injEq _ _ _ _).mp h).1).symm
  · split at h
    · cases ((Prod.mk.injEq _ _ _ _).mp h).1
    · exact (Except.ok.inj ((Prod.mk.injEq _ _ _ _).mp h).1).symm

/-! ### Concrete worlds used as claim witnesses and counterexamples -/

/-- A world whose HTTP oracle answers every URL with an empty 200 body. -/
def wEmpty200 : World :=
  { fs := fun _ => none,
    http := fun _ => some { status := 200, content := "" },
    ffmpeg := fun _ fs => (0, "", fs),
    uuidStream := fun n => "id" ++ toString n,
    removeRaises := fun _ => false,
    nextUuid := 0, ffmpegCalls := [], fetchLog := [], removeLog := [] }

/-- A world whose HTTP oracle answers every URL with 404. -/
def w404 : World :=
  { wEmpty200 with http := fun _ => some { status := 404, content := "x" } }

/-- A well-behaved world: every URL downloads a non-empty body, and the
external tool succeeds, writing (non-empty) content at every path. -/
def wGood : World :=
  { wEmpty200 with
    http := fun _ => some { status := 200, content := "vid" },
    ffmpeg := fun _ _ => (0, "", fun _ => some "OUT") }

/-! ### C4 -/

/-- C4, counterexample: the claim says `download_video` reports failure
whenever the downloaded file is zero-length even on an HTTP success; in
the code (lines 29-44) there is no such check: with a 200 status and an
empty body it returns `True` and leaves a zero-length file at the output
path. -/
theorem spec_C4_counterexample :
    (download_video "u" "/v.mp4" wEmpty200).1 = true ∧
    (download_video "u" "/v.mp4" wEmpty200).2.fs "/v.mp4" = some "" := by
  constructor <;> rfl

/-- A world whose HTTP oracle raises on every URL (the `except` branch of
lines 42-44). -/
def wRaise : World :=
  { wEmpty200 with http := fun _ => none }

/-- C4 (amended): `download_video` reports failure (returns `False`)
whenever the request raises an exception (lines 42-44) and whenever the
HTTP status is anything other than exactly 200 (lines 33-35); but it
performs no zero-length check itself: on a 200 response it returns `True`
even when the body is empty, writing the body (possibly zero-length) to
the output path.  (The emptiness check is instead performed by its caller
`combine_videos_from_urls`, line 189.) -/
theorem spec_C4 (url p : String) (w : World) :
    ((w.http url = none → (download_video url p w).1 = false) ∧
     (∀ r, w.http url = some r → r.status ≠ 200 →
       (download_video url p w).1 = false)) ∧
    (∀ r, w.http url = some r → r.status = 200 →
      (download_video url p w).1 = true ∧
      (download_video url p w).2.fs (resolve p) = some r.content) := by
  refine ⟨⟨?hexc, ?hbad⟩, ?hok⟩
  case hexc =>
    intro hr
    unfold download_video
    simp only [hr]
  case hbad =>
    intro r hr hst
    unfold download_video
    simp only [hr]
    rw [if_pos hst]
  case hok =>
    intro r hr hst
    unfold download_video
    simp only [hr]
    rw [if_neg (by simp [hst])]
    exact ⟨rfl, by simp [fsWrite]⟩

theorem spec_C4_witness :
    (download_video "u" "/v.mp4" wRaise).1 = false ∧
    (download_video "u" "/v.mp4" w404).1 = false ∧
    ((download_video "u" "/v.mp4" wEmpty200).1 = true ∧
      (download_video "u" "/v.mp4" wEmpty200).2.fs (resolve "/v.mp4") =
        some "") :=
  ⟨(spec_C4 "u" "/v.mp4" wRaise).1.1 rfl,
    (spec_C4 "u" "/v.mp4" w404).1.2 { status := 404, content := "x" } rfl
      (by decide),
    (spec_C4 "u" "/v.mp4" wEmpty200).2 { status := 200, content := "" } rfl
      rfl⟩

/-! ### C2 -/

/-- C2: fail-fast on the first failed fetch.  If the fetches of the first
k URLs succeed with non-empty bodies and the fetch of URL k fails (raised
exception, non-200 status, or empty body), then `combine_videos_from_urls`
returns a structured failure whose error names the 1-based position k+1
(and, for a download failure, the URL itself), and the attempted fetches
are exactly the first k+1 URLs — no later URL is ever fetched. -/
theorem spec_C2 (urls : List String) (outd : String) (w : World) (k : Nat)
    (u : String)
    (hget : urls.get? k = some u)
    (hpre : ∀ j u2, j < k → urls.get? j = some u2 →
      fetchOK w.http u2 = true)
    (hbad : fetchOK w.http u = false)
    (hlog : w.fetchLog = []) :
    ∃ r w1, combine_videos_from_urls urls outd w = (Except.ok r, w1) ∧
      r.success = false ∧
      (r.error = some ("Failed to download video " ++ toString (k + 1) ++
          " from URL: " ++ u) ∨
        r.error = some ("Downloaded video file " ++ toString (k + 1) ++
          " is missing or empty")) ∧
      w1.fetchLog = urls.take (k + 1) ∧
      w1.ffmpegCalls = w.ffmpegCalls := by
  unfold combine_videos_from_urls
  obtain ⟨e, w1, hloop, hmsg, hflog, hhttp1, hcalls1⟩ :=
    downloadLoop_err
      (cwd ++ "/downloaded_videos/batch_" ++ (w.uuidStream w.nextUuid).take 8)
      k urls 0 { w with nextUuid := w.nextUuid + 1 } u hget hpre hbad
  simp only [hloop]
  rw [Nat.zero_add] at hmsg
  refine ⟨{ success := false, error := some e }, w1, rfl, rfl, ?hmsg2,
    ?hflog2, ?hcalls2⟩
  case hmsg2 =>
    rcases hmsg with h | h <;> [exact Or.inl (by rw [h]);
      exact Or.inr (by rw [h])]
  case hflog2 =>
    rw [hflog]
    show ({ w with nextUuid := w.nextUuid + 1 } : World).fetchLog ++
      urls.take (k + 1) = urls.take (k + 1)
    rw [(rfl : ({ w with nextUuid := w.nextUuid + 1 } : World).fetchLog =
      w.fetchLog), hlog, List.nil_append]
  case hcalls2 => rw [hcalls1]

theorem spec_C2_witness :
    ∃ r w1,
      combine_videos_from_urls ["a", "b", "c"] "outdir"
        { wGood with http := fun u =>
            if u = "b" then some { status := 404, content := "x" }
            else some { status := 200, content := "vid" } } =
        (Except.ok r, w1) ∧
      r.success = false ∧
      (r.error = some ("Failed to download video " ++ toString 2 ++
          " from URL: " ++ "b") ∨
        r.error = some ("Downloaded video file " ++ toString 2 ++
          " is missing or empty")) ∧
      w1.fetchLog = ["a", "b", "c"].take 2 ∧
      w1.ffmpegCalls = [] :=
  spec_C2 ["a", "b", "c"] "outdir"
    { wGood with http := fun u =>
        if u = "b" then some { status := 404, content := "x" }
        else some { status := 200, content := "vid" } }
    1 "b" rfl
    (by
      intro j u2 hj hg
      have hj0 : j = 0 := by omega
      subst hj0
      have hu : "a" = u2 := Option.some.inj hg
      subst hu
      decide)
    (by decide) rfl

/-! ### C3 -/

/-- C3: `combine_videos` declares success only if the (single) external
tool invocation exited 0 and afterwards the output file exists with size
greater than zero (lines 99-121); if the tool exited 0 but the output is
missing or empty, it returns `False`. -/
theorem spec_C3 (paths : List String) (out : String) (w : World)
    (hcalls : w.ffmpegCalls = []) :
    ((combine_videos paths out w).1 = true →
      ∃ call, (combine_videos paths out w).2.ffmpegCalls = [call] ∧
        call.rc = 0 ∧
        ∃ c, call.fsAfter (resolve out) = some c ∧ c.length ≠ 0) ∧
    (∀ call, (combine_videos paths out w).2.ffmpegCalls = [call] →
      call.rc = 0 →
      (call.fsAfter (resolve out) = none ∨
        call.fsAfter (resolve out) = some "") →
      (combine_videos paths out w).1 = false) := by
  have part1 : (combine_videos paths out w).1 = true →
      ∃ call, (combine_videos paths out w).2.ffmpegCalls = [call] ∧
        call.rc = 0 ∧
        ∃ c, call.fsAfter (resolve out) = some c ∧ c.length ≠ 0 := by
    intro htrue
    by_cases hval : validateInputs w paths = true
    · by_cases hp : paths = []
      · subst hp
        rw [combine_videos_nil] at htrue
        cases htrue
      · obtain ⟨call, hc1, _, _, hiff, _⟩ :=
          combine_videos_spec paths out w hval (manifestContent_ne hp)
        obtain ⟨hrc, hout⟩ := hiff.mp htrue
        exact ⟨call, by rw [hc1, hcalls, List.nil_append], hrc, hout⟩
    · rw [combine_videos_validateFalse
        (by revert hval; cases validateInputs w paths <;> simp)] at htrue
      cases htrue
  refine ⟨part1, fun call hceq hrc hbad => ?part2⟩
  rcases hb : (combine_videos paths out w).1 with _ | _
  · rfl
  · obtain ⟨call2, hc2, _, c, hcout, hcne⟩ := part1 hb
    rw [hceq] at hc2
    have : call = call2 := by
      have := (List.cons.injEq _ _ _ _).mp hc2
      exact this.1
    subst this
    rcases hbad with h | h
    · rw [h] at hcout; cases hcout
    · rw [h] at hcout
      rw [← Option.some.inj hcout] at hcne
      exact absurd rfl hcne

/-- A world with one valid input clip for exercising `combine_videos`. -/
def wClip : World :=
  { wGood with fs := fun q => if q = "/clips/a.mp4" then some "AAA"
      else none }

theorem spec_C3_witness :
    ∃ call,
      (combine_videos ["/clips/a.mp4"] "/outd/o.mp4" wClip).2.ffmpegCalls =
        [call] ∧
      call.rc = 0 ∧
      ∃ c, call.fsAfter (resolve "/outd/o.mp4") = some c ∧ c.length ≠ 0 :=
  (spec_C3 ["/clips/a.mp4"] "/outd/o.mp4" wClip rfl).1 (by decide)

/-! ### C7 -/

/-- C7: if any input path is missing or names an empty file,
`combine_videos` returns `False` with the world unchanged — in particular
without invoking the external tool (lines 57-66); and conversely every
file referenced at an ffmpeg invocation existed with size > 0 on the
filesystem passed to the tool. -/
theorem spec_C7 (paths : List String) (out : String) (w : World) :
    ((∃ p ∈ paths, w.fs (resolve p) = none ∨ w.fs (resolve p) = some "") →
      combine_videos paths out w = (false, w)) ∧
    (w.ffmpegCalls = [] →
      ∀ call, call ∈ (combine_videos paths out w).2.ffmpegCalls →
        ∀ p ∈ paths, ∃ c, call.fsBefore (resolve p) = some c ∧
          c.length ≠ 0) := by
  constructor
  · rintro ⟨p, hp, hbad⟩
    apply combine_videos_validateFalse
    rcases hv : validateInputs w paths with _ | _
    · rfl
    · exfalso
      obtain ⟨c, hc, hcne⟩ := (validateInputs_true_iff w paths).mp hv p hp
      rcases hbad with h | h
      · rw [h] at hc; cases hc
      · rw [h] at hc
        rw [← Option.some.inj hc] at hcne
        exact absurd rfl hcne
  · intro hcalls call hmem p hp
    have hne : paths ≠ [] := by
      intro he; rw [he] at hp; cases hp
    by_cases hval : validateInputs w paths = true
    · obtain ⟨call2, hc1, _, hbefore, _⟩ :=
        combine_videos_spec paths out w hval (manifestContent_ne hne)
      rw [hc1, hcalls, List.nil_append] at hmem
      have : call = call2 := by
        rcases List.mem_singleton.mp hmem with h
        exact h
      subst this
      rw [hbefore]
      have hw2 : (fsWrite { w with nextUuid := w.nextUuid + 1 } (lfOf w)
          (manifestContent paths)).fs (resolve p) =
          if resolve p = lfOf w then some (manifestContent paths)
          else w.fs (resolve p) := by
        simp [fsWrite]
      rw [hw2]
      split
      · exact ⟨manifestContent paths, rfl, manifestContent_ne hne⟩
      · exact (validateInputs_true_iff w paths).mp hval p hp
    · rw [combine_videos_validateFalse
        (by revert hval; cases validateInputs w paths <;> simp)] at hmem
      rw [hcalls] at hmem
      cases hmem

theorem spec_C7_witness :
    combine_videos ["/clips/missing.mp4"] "/outd/o.mp4" wClip =
      (false, wClip) ∧
    (∀ call, call ∈ (combine_videos ["/clips/a.mp4"] "/outd/o.mp4"
        wClip).2.ffmpegCalls →
      ∀ p ∈ ["/clips/a.mp4"], ∃ c, call.fsBefore (resolve p) = some c ∧
        c.length ≠ 0) :=
  ⟨(spec_C7 ["/clips/missing.mp4"] "/outd/o.mp4" wClip).1
      ⟨"/clips/missing.mp4", by decide, Or.inl (by decide)⟩,
    (spec_C7 ["/clips/a.mp4"] "/outd/o.mp4" wClip).2 rfl⟩

/-! ### Projection helper lemmas (to avoid deep definitional unfolding) -/

theorem fsWrite_fs (w : World) (p c q : String) :
    (fsWrite w p c).fs q = if q = p then some c else w.fs q := rfl

theorem fsWrite_http (w : World) (p c : String) :
    (fsWrite w p c).http = w.http := rfl

theorem fsWrite_calls (w : World) (p c : String) :
    (fsWrite w p c).ffmpegCalls = w.ffmpegCalls := rfl

theorem fsWrite_rr (w : World) (p c : String) :
    (fsWrite w p c).removeRaises = w.removeRaises := rfl

theorem fsWrite_uuid (w : World) (p c : String) :
    (fsWrite w p c).uuidStream = w.uuidStream := rfl

theorem fsWrite_next (w : World) (p c : String) :
    (fsWrite w p c).nextUuid = w.nextUuid := rfl

theorem fsWrite_flog (w : World) (p c : String) :
    (fsWrite w p c).fetchLog = w.fetchLog := rfl

theorem fsWrite_rlog (w : World) (p c : String) :
    (fsWrite w p c).removeLog = w.removeLog := rfl

/-! ### Orchestrator path names and unfolding lemmas -/

/-- The batch identifier allocated by a run of `combine_videos_from_urls`
starting in world `w`: the next fresh uuid truncated to 8 characters
(line 150). -/
def batchOf (w : World) : String := (w.uuidStream w.nextUuid).take 8

/-- The per-batch download directory (line 153). -/
def videosDirOf (w : World) : String :=
  cwd ++ "/downloaded_videos/batch_" ++ batchOf w

/-- The orchestrator's own concat list file (line 202). -/
def listFile1Of (w : World) : String :=
  cwd ++ "/temp/video_list_" ++ batchOf w ++ ".txt"

/-- The list file created inside the nested `combine_videos` call (line
71), which consumes the second fresh uuid of the run. -/
def listFile2Of (w : World) : String :=
  cwd ++ "/temp/video_list_" ++ w.uuidStream (w.nextUuid + 1) ++ ".txt"

/-- The combined output path of the batch (lines 166-167). -/
def combinedPathOf (w : World) (outd : String) : String :=
  pyJoin (resolve outd) ("combined_" ++ batchOf w ++ ".mp4")

/-- If the download loop fails, the orchestrator returns the loop's error
as a structured failure dict (and its `finally` does nothing, the list
file never having been assigned). -/
theorem cvu_err_generic (urls : List String) (outd : String) (w : World)
    (e : String) (w1 : World)
    (hloop : downloadLoop (videosDirOf w) urls 0
      { w with nextUuid := w.nextUuid + 1 } = (Except.error e, w1)) :
    combine_videos_from_urls urls outd w =
      (Except.ok { success := false, error := some e }, w1) := by
  unfold combine_videos_from_urls
  unfold videosDirOf batchOf at hloop
  simp only [hloop]

/-- If the download loop succeeds, the orchestrator writes its manifest,
calls `combine_videos` and pushes the corresponding result dict through
its (unprotected) `finally`. -/
theorem cvu_ok_generic (urls : List String) (outd : String) (w : World)
    (ps : List String) (w1 : World)
    (hloop : downloadLoop (videosDirOf w) urls 0
      { w with nextUuid := w.nextUuid + 1 } = (Except.ok ps, w1)) :
    combine_videos_from_urls urls outd w =
      (if (combine_videos ps (combinedPathOf w outd)
            (fsWrite w1 (listFile1Of w) (manifestContent ps))).1 = false
       then
         finallyRemove (listFile1Of w)
           { success := false, error := some "Failed to combine videos" }
           (combine_videos ps (combinedPathOf w outd)
             (fsWrite w1 (listFile1Of w) (manifestContent ps))).2
       else
         finallyRemove (listFile1Of w)
           { success := true,
             combined_video_path := some (combinedPathOf w outd),
             download_url := some ("/download/" ++
               basename (combinedPathOf w outd)),
             videos_directory := some (videosDirOf w),
             video_count := some ps.length }
           (combine_videos ps (combinedPathOf w outd)
             (fsWrite w1 (listFile1Of w) (manifestContent ps))).2) := by
  unfold combine_videos_from_urls
  unfold videosDirOf batchOf at hloop
  simp only [hloop]
  unfold combinedPathOf videosDirOf listFile1Of batchOf
  rcases combine_videos ps
    (pyJoin (resolve outd)
      ("combined_" ++ (w.uuidStream w.nextUuid).take 8 ++ ".mp4"))
    (fsWrite w1
      (cwd ++ "/temp/video_list_" ++ (w.uuidStream w.nextUuid).take 8 ++
        ".txt")
      (manifestContent ps)) with ⟨b, w3⟩
  rfl

/-! ### C10 -/

/-- Everything C10 needs about a `combine_videos []` run: it fails, calls
no tool, removes at most one `.txt` scratch file and does not touch any
path that is not a `.txt` file. -/
theorem combine_videos_nil_facts (out : String) (w : World) :
    (combine_videos [] out w).1 = false ∧
    (combine_videos [] out w).2.ffmpegCalls = w.ffmpegCalls ∧
    (combine_videos [] out w).2.removeRaises = w.removeRaises ∧
    (∀ q, (∀ t, q ≠ t ++ ".txt") →
      (combine_videos [] out w).2.fs q = w.fs q) ∧
    (∀ q, q ∈ (combine_videos [] out w).2.removeLog →
      q ∈ w.removeLog ∨ ∃ t, q = t ++ ".txt") := by
  rw [combine_videos_nil]
  obtain ⟨g1, g2, g3, g4, g5, g6, g7, g8, g9, g10⟩ :=
    cleanupListFile_facts
      (fsWrite { w with nextUuid := w.nextUuid + 1 }
        (cwd ++ "/temp/video_list_" ++ w.uuidStream w.nextUuid ++ ".txt") "")
      (cwd ++ "/temp/video_list_" ++ w.uuidStream w.nextUuid ++ ".txt")
  refine ⟨rfl, ?hc, ?hr, ?hfs, ?hrl⟩
  case hc => rw [g1]; rfl
  case hr => rw [g3]; rfl
  case hfs =>
    intro q hq
    have hne : q ≠ cwd ++ "/temp/video_list_" ++
        w.uuidStream w.nextUuid ++ ".txt" :=
      hq (cwd ++ "/temp/video_list_" ++ w.uuidStream w.nextUuid)
    rw [g9 q hne]
    show (if q = cwd ++ "/temp/video_list_" ++
        w.uuidStream w.nextUuid ++ ".txt" then some "" else w.fs q) = w.fs q
    rw [if_neg hne]
  case hrl =>
    intro q hqmem
    rcases g8 with h8 | h8
    · rw [h8] at hqmem
      exact Or.inl (by simpa using hqmem)
    · rw [h8] at hqmem
      rcases List.mem_append.mp hqmem with h | h
      · exact Or.inl (by simpa using h)
      · exact Or.inr ⟨cwd ++ "/temp/video_list_" ++ w.uuidStream w.nextUuid,
          List.mem_singleton.mp h⟩

/-- C10: an empty input list never succeeds.  `combine_videos []` writes
an empty manifest, rejects it at line 82's size check, and returns
`False` without invoking the external tool; `combine_videos_from_urls []`
returns a structured result with `success = False` (the generic
combination error), also with no tool invocation, and no `.mp4` path is
created or modified by the run. -/
theorem spec_C10 :
    (∀ (out : String) (w : World),
      (combine_videos [] out w).1 = false ∧
      (combine_videos [] out w).2.ffmpegCalls = w.ffmpegCalls) ∧
    (∀ (outd : String) (w : World), (∀ p, w.removeRaises p = false) →
      ∃ w1, combine_videos_from_urls [] outd w =
        (Except.ok { success := false,
                     error := some "Failed to combine videos" }, w1) ∧
        w1.ffmpegCalls = w.ffmpegCalls ∧
        (∀ q t, q = t ++ ".mp4" → w1.fs q = w.fs q)) := by
  constructor
  · intro out w
    obtain ⟨n1, n2, _⟩ := combine_videos_nil_facts out w
    exact ⟨n1, n2⟩
  · intro outd w hrm
    have hloop : downloadLoop (videosDirOf w) [] 0
        { w with nextUuid := w.nextUuid + 1 } =
        (Except.ok [], { w with nextUuid := w.nextUuid + 1 }) := rfl
    rw [cvu_ok_generic [] outd w []
      { w with nextUuid := w.nextUuid + 1 } hloop]
    obtain ⟨n1, n2, n3, n4, n5⟩ := combine_videos_nil_facts
      (combinedPathOf w outd)
      (fsWrite { w with nextUuid := w.nextUuid + 1 } (listFile1Of w)
        (manifestContent []))
    rw [n1, if_pos rfl]
    obtain ⟨w1f, hfin, hfnone, hfpres, hfrlog, hfcalls, _, _, _, _, _⟩ :=
      finallyRemove_ok
        { success := false, error := some "Failed to combine videos" }
        (by
          rw [n3, fsWrite_rr]
          exact hrm (listFile1Of w))
    rw [hfin]
    refine ⟨w1f, rfl, ?hcalls, ?hfs⟩
    case hcalls => rw [hfcalls, n2, fsWrite_calls]
    case hfs =>
      intro q t hq
      have hq1 : q ≠ listFile1Of w := by
        rw [hq]
        intro he
        exact txt_ne_mp4 (cwd ++ "/temp/video_list_" ++ batchOf w) t he.symm
      have hqt : ∀ t2, q ≠ t2 ++ ".txt" := by
        intro t2 he
        rw [hq] at he
        exact txt_ne_mp4 t2 t he.symm
      rw [hfpres q hq1, n4 q hqt, fsWrite_fs, if_neg hq1]

theorem spec_C10_witness :
    ((combine_videos [] "/outd/o.mp4" wGood).1 = false ∧
      (combine_videos [] "/outd/o.mp4" wGood).2.ffmpegCalls = []) ∧
    (∃ w1, combine_videos_from_urls [] "outdir" wGood =
      (Except.ok { success := false,
                   error := some "Failed to combine videos" }, w1) ∧
      w1.ffmpegCalls = [] ∧
      (∀ q t, q = t ++ ".mp4" → w1.fs q = wGood.fs q)) :=
  ⟨spec_C10.1 "/outd/o.mp4" wGood,
    spec_C10.2 "outdir" wGood (fun _ => rfl)⟩

/-! ### C5 -/

/-- A world in which every fetch succeeds, the external tool fails with
exit code 1, and every `os.remove` raises (e.g. the temp directory was
made read-only mid-run). -/
def wRemoveFail : World :=
  { wGood with
    ffmpeg := fun _ fs => (1, "boom", fs),
    removeRaises := fun _ => true }

/-- C5 is a code bug: the claim (and the spec) say a cleanup failure is
logged, never escalated, and that `combine_videos_from_urls` always
returns a structured dict.  But the `finally` block at lines 237-245 calls
`os.remove` without a `try` (unlike the sibling `finally` of
`combine_videos`, lines 125-132, which does guard it), so when the removal
of the orchestrator's list file raises, the exception propagates to the
caller and replaces the structured result: here the body had computed
`{"success": False, "error": "Failed to combine videos"}`, and the caller
instead sees a raised `OSError`. -/
theorem spec_C5_bug :
    (combine_videos_from_urls ["u"] "outdir" wRemoveFail).1 =
      Except.error "OSError: failed to remove /workdir/temp/video_list_id0.txt" := by
  rfl

/-! ### C9 -/

/-- When both inputs exist and the output path resolves, the single thing
`add_audio_to_video` does to the world is one ffmpeg invocation with the
argv of lines 63-73. -/
theorem add_audio_calls (v a : String) (outOpt : Option String)
    (out : String) (w : World) {cv ca : String}
    (hv : w.fs (resolve v) = some cv) (ha : w.fs (resolve a) = some ca)
    (hro : resolveOutputPath v outOpt = some out) :
    ∃ call, (add_audio_to_video v a outOpt w).2.ffmpegCalls =
      w.ffmpegCalls ++ [call] ∧ call.cmd = addAudioCmd v a out := by
  unfold add_audio_to_video
  simp only [hv, ha, hro]
  rcases hor : w.ffmpeg (addAudioCmd v a out) w.fs with ⟨rc, st, fsA⟩
  simp only [runFfmpeg, hor]
  refine ⟨{ cmd := addAudioCmd v a out, fsBefore := w.fs, rc := rc,
            stderr := st, fsAfter := fsA }, ?hc, rfl⟩
  by_cases hrc : ¬ rc = 0
  · rw [if_pos hrc]
  · rw [if_neg hrc]
    rcases h3 : fsA (resolve out) with _ | c <;> simp only [h3]
    by_cases hc : c.length = 0
    · rw [if_pos hc]
    · rw [if_neg hc]

/-- C9: output-path derivation in `add_audio_to_video` (lines 41-57).
With no supplied output path (or a whitespace-only one), the tool is
invoked with the derived path — the video's directory joined with its
base name suffixed `_with_audio` plus the video's own extension
(`derivedOutput`); with a supplied path that has no extension, the tool is
invoked with that path plus the video's extension appended. -/
theorem spec_C9 (v a : String) (w : World) {cv ca : String}
    (hv : w.fs (resolve v) = some cv) (ha : w.fs (resolve a) = some ca)
    (hcalls : w.ffmpegCalls = []) :
    (∀ outOpt, (outOpt = none ∨ ∃ s, outOpt = some s ∧ pyStrip s = "") →
      ∃ call, (add_audio_to_video v a outOpt w).2.ffmpegCalls = [call] ∧
        call.cmd = addAudioCmd v a (derivedOutput v)) ∧
    (∀ s, ¬ pyStrip s = "" → (splitext s).2 = "" →
      ∃ call,
        (add_audio_to_video v a (some s) w).2.ffmpegCalls = [call] ∧
        call.cmd = addAudioCmd v a (s ++ (splitext v).2)) := by
  constructor
  · intro outOpt hout
    have hro : resolveOutputPath v outOpt = some (derivedOutput v) := by
      rcases hout with rfl | ⟨s, rfl, hs⟩
      · exact resolveOutputPath_none v
      · exact resolveOutputPath_blank v s hs
    obtain ⟨call, hc1, hc2⟩ := add_audio_calls v a outOpt
      (derivedOutput v) w hv ha hro
    exact ⟨call, by rw [hc1, hcalls, List.nil_append], hc2⟩
  · intro s hs hext
    obtain ⟨call, hc1, hc2⟩ := add_audio_calls v a (some s)
      (s ++ (splitext v).2) w hv ha (resolveOutputPath_noext v s hs hext)
    exact ⟨call, by rw [hc1, hcalls, List.nil_append], hc2⟩

/-- A world holding a video and an audio file, for the C9 witness. -/
def wAV : World :=
  { wGood with fs := fun q =>
      if q = "/vids/movie.mp4" then some "VVV"
      else if q = "/snd/track.mp3" then some "SSS" else none }

theorem spec_C9_witness :
    (∃ call,
      (add_audio_to_video "/vids/movie.mp4" "/snd/track.mp3" none
        wAV).2.ffmpegCalls = [call] ∧
      call.cmd = addAudioCmd "/vids/movie.mp4" "/snd/track.mp3"
        (derivedOutput "/vids/movie.mp4")) ∧
    (∃ call,
      (add_audio_to_video "/vids/movie.mp4" "/snd/track.mp3"
        (some "/out/final") wAV).2.ffmpegCalls = [call] ∧
      call.cmd = addAudioCmd "/vids/movie.mp4" "/snd/track.mp3"
        ("/out/final" ++ (splitext "/vids/movie.mp4").2)) ∧
    derivedOutput "/vids/movie.mp4" = "/vids/movie_with_audio.mp4" ∧
    "/out/final" ++ (splitext "/vids/movie.mp4").2 = "/out/final.mp4" :=
  ⟨(spec_C9 "/vids/movie.mp4" "/snd/track.mp3" wAV rfl rfl rfl).1 none
      (Or.inl rfl),
    (spec_C9 "/vids/movie.mp4" "/snd/track.mp3" wAV rfl rfl rfl).2
      "/out/final" (by decide) (by decide),
    by decide, by decide⟩

/-! ### C1 -/

theorem finallyRemove_calls (lf : String) (res : CombineResult)
    (w : World) : (finallyRemove lf res w).2.ffmpegCalls = w.ffmpegCalls := by
  unfold finallyRemove
  rcases hm : w.fs lf with _ | c <;> simp only [hm]
  by_cases hr : w.removeRaises lf = true
  · rw [if_pos hr]
  · rw [if_neg hr]
    rfl

/-- C1: the concat manifest handed to the external tool lists exactly the
input files, one `file '<absolute path>'` line per input, in input order.
For `combine_videos` on any valid non-empty path list, the single ffmpeg
invocation reads, through `-i`, a list file whose content at call time is
`manifestContent paths` (one `manifestLine` per path, in order, each line
holding the resolved absolute path); for `combine_videos_from_urls`, the
paths listed are the sequentially numbered clips of the batch in URL
order. -/
theorem spec_C1 :
    (∀ (paths : List String) (out : String) (w : World),
      validateInputs w paths = true → paths ≠ [] → w.ffmpegCalls = [] →
      ∃ call lf, (combine_videos paths out w).2.ffmpegCalls = [call] ∧
        call.cmd = ffmpegConcatCmd lf out ∧
        call.fsBefore lf = some (manifestContent paths)) ∧
    (∀ (urls : List String) (outd : String) (w : World),
      (∀ u ∈ urls, fetchOK w.http u = true) → urls ≠ [] →
      w.ffmpegCalls = [] →
      ∃ call lf,
        (combine_videos_from_urls urls outd w).2.ffmpegCalls = [call] ∧
        call.cmd = ffmpegConcatCmd lf (combinedPathOf w outd) ∧
        call.fsBefore lf = some (manifestContent
          ((List.range urls.length).map
            (fun j => clipPath (videosDirOf w) j)))) := by
  constructor
  · intro paths out w hval hne hcalls
    obtain ⟨call, hc1, hcmd, hbefore, _⟩ :=
      combine_videos_spec paths out w hval (manifestContent_ne hne)
    refine ⟨call, lfOf w, by rw [hc1, hcalls, List.nil_append], hcmd, ?hb⟩
    rw [hbefore, fsWrite_fs, if_pos rfl]
  · intro urls outd w hok hne hcalls
    obtain ⟨ps, w1, hloop⟩ := downloadLoop_succeeds (videosDirOf w) urls 0
      { w with nextUuid := w.nextUuid + 1 } (fun u hu => hok u hu)
    rw [cvu_ok_generic urls outd w ps w1 hloop]
    obtain ⟨hps, l1, l2, l3, l4, l5, l6, l7, l8, l9, l10, l11⟩ :=
      downloadLoop_ok (videosDirOf w) urls 0
        { w with nextUuid := w.nextUuid + 1 } ps w1 hloop
    have hps2 : ps = (List.range urls.length).map
        (fun j => clipPath (videosDirOf w) j) := by
      rw [hps]
      exact List.map_congr_left (fun j _ => by rw [Nat.zero_add])
    have hpsne : ps ≠ [] := by
      rw [hps2]
      intro he
      have := congrArg List.length he
      rw [List.length_map, List.length_range] at this
      exact hne (List.length_eq_zero.mp this)
    have hval : validateInputs
        (fsWrite w1 (listFile1Of w) (manifestContent ps)) ps = true := by
      rw [validateInputs_true_iff]
      intro p hp
      rw [hps2] at hp
      obtain ⟨j, hj, rfl⟩ := List.mem_map.mp hp
      rw [List.mem_range] at hj
      rw [fsWrite_fs]
      rw [if_neg (by
        obtain ⟨t, ht⟩ := resolve_clipPath_mp4 (videosDirOf w) j
        rw [ht]
        intro he
        exact txt_ne_mp4 (cwd ++ "/temp/video_list_" ++ batchOf w) t
          he.symm)]
      have := l10 j hj
      rw [Nat.zero_add] at this
      exact this
    obtain ⟨call, hc1, hcmd, hbefore, _⟩ :=
      combine_videos_spec ps (combinedPathOf w outd)
        (fsWrite w1 (listFile1Of w) (manifestContent ps)) hval
        (manifestContent_ne hpsne)
    refine ⟨call,
      lfOf (fsWrite w1 (listFile1Of w) (manifestContent ps)), ?hcl,
      ?hcmd2, ?hb2⟩
    case hcl =>
      split <;>
        rw [finallyRemove_calls, hc1, fsWrite_calls, l6, hcalls] <;> rfl
    case hcmd2 => exact hcmd
    case hb2 =>
      rw [hbefore, fsWrite_fs, if_pos rfl, ← hps2]

theorem spec_C1_witness :
    ∃ call lf,
      (combine_videos_from_urls ["u"] "outdir" wGood).2.ffmpegCalls =
        [call] ∧
      call.cmd = ffmpegConcatCmd lf (combinedPathOf wGood "outdir") ∧
      call.fsBefore lf = some (manifestContent
        ((List.range (["u"] : List String).length).map
          (fun j => clipPath (videosDirOf wGood) j))) :=
  spec_C1.2 ["u"] "outdir" wGood (by decide) (by decide) rfl

/-! ### C6 -/

/-- Cleanup behaviour of any validated `combine_videos` run: its own list
file ends up removed (when removal does not raise), the only possible
remove targets its own list file, and the remove-raise oracle survives. -/
theorem combine_videos_cleanup (paths : List String) (out : String)
    (w : World) (hval : validateInputs w paths = true) :
    ((combine_videos paths out w).2.removeLog = w.removeLog ∨
      (combine_videos paths out w).2.removeLog = w.removeLog ++ [lfOf w]) ∧
    (w.removeRaises (lfOf w) = false →
      (combine_videos paths out w).2.fs (lfOf w) = none) ∧
    (combine_videos paths out w).2.removeRaises = w.removeRaises := by
  by_cases hp : paths = []
  · subst hp
    rw [combine_videos_nil]
    obtain ⟨g1, g2, g3, g4, g5, g6, g7, g8, g9, g10⟩ :=
      cleanupListFile_facts
        (fsWrite { w with nextUuid := w.nextUuid + 1 }
          (cwd ++ "/temp/video_list_" ++ w.uuidStream w.nextUuid ++ ".txt")
          "")
        (cwd ++ "/temp/video_list_" ++ w.uuidStream w.nextUuid ++ ".txt")
    refine ⟨?hrl, ?hfs, ?hrr⟩
    case hrl =>
      rcases g8 with h8 | h8
      · exact Or.inl (by rw [h8]; rfl)
      · exact Or.inr (by rw [h8]; rfl)
    case hfs => intro hfr; exact g10 hfr
    case hrr => rw [g3]; rfl
  · obtain ⟨call, _, _, _, _, h5, h6, _, h7, _⟩ :=
      combine_videos_spec paths out w hval (manifestContent_ne hp)
    exact ⟨h6, h5, h7⟩

/-- C6: after any run of `combine_videos_from_urls`, both transient list
files of the batch (the orchestrator's own and the one of the nested
`combine_videos` call) no longer exist, and the run's `os.remove` calls
only ever target those two `.txt` list files — never the downloaded
`.mp4` clips and never the combined `.mp4` output. -/
theorem spec_C6 (urls : List String) (outd : String) (w : World)
    (hrm : ∀ p, w.removeRaises p = false)
    (hrl : w.removeLog = [])
    (hm1 : w.fs (listFile1Of w) = none)
    (hm2 : w.fs (listFile2Of w) = none) :
    ∃ r w1, combine_videos_from_urls urls outd w = (Except.ok r, w1) ∧
      w1.fs (listFile1Of w) = none ∧
      w1.fs (listFile2Of w) = none ∧
      (∀ q ∈ w1.removeLog, q = listFile1Of w ∨ q = listFile2Of w) ∧
      (∀ j, ¬ resolve (clipPath (videosDirOf w) j) ∈ w1.removeLog) ∧
      ¬ resolve (combinedPathOf w outd) ∈ w1.removeLog := by
  have hmp4gen : ∀ (s : String),
      (∀ j, s ++ ".txt" ≠ resolve (clipPath (videosDirOf w) j)) ∧
      s ++ ".txt" ≠ resolve (combinedPathOf w outd) := by
    intro s
    constructor
    · intro j he
      obtain ⟨t, ht⟩ := resolve_clipPath_mp4 (videosDirOf w) j
      rw [ht] at he
      exact txt_ne_mp4 s t he
    · intro he
      obtain ⟨t0, ht0⟩ := pyJoin_mp4 (resolve outd)
        ("combined_" ++ batchOf w)
      have hcp : resolve (combinedPathOf w outd) =
          resolve (t0 ++ ".mp4") := by
        unfold combinedPathOf
        rw [← ht0]
      obtain ⟨t1, ht1⟩ := resolve_mp4 t0
      rw [hcp, ht1] at he
      exact txt_ne_mp4 s t1 he
  have hmp4 : ∀ (q : String), (q = listFile1Of w ∨ q = listFile2Of w) →
      (∀ j, q ≠ resolve (clipPath (videosDirOf w) j)) ∧
      q ≠ resolve (combinedPathOf w outd) := by
    intro q hq
    rcases hq with hq | hq
    · rw [hq]
      exact hmp4gen (cwd ++ "/temp/video_list_" ++ batchOf w)
    · rw [hq]
      exact hmp4gen (cwd ++ "/temp/video_list_" ++
        w.uuidStream (w.nextUuid + 1))
  rcases hloop : downloadLoop (videosDirOf w) urls 0
      { w with nextUuid := w.nextUuid + 1 } with ⟨res, w1p⟩
  obtain ⟨p1, p2, p3, p4, p5, p6, p7, p8⟩ :=
    downloadLoop_pres (videosDirOf w) urls 0
      { w with nextUuid := w.nextUuid + 1 } res w1p hloop
  have hfs_txt : ∀ s : String,
      w1p.fs (s ++ ".txt") = w.fs (s ++ ".txt") := by
    intro s
    rcases p8 (s ++ ".txt") with h | ⟨t, ht⟩
    · rw [h]
    · exact absurd ht (txt_ne_mp4 s t)
  rcases res with e | ps
  · rw [cvu_err_generic urls outd w e w1p hloop]
    refine ⟨_, w1p, rfl, ?f1, ?f2, ?f3, ?f4, ?f5⟩
    case f1 =>
      exact (hfs_txt (cwd ++ "/temp/video_list_" ++ batchOf w)).trans hm1
    case f2 =>
      exact (hfs_txt (cwd ++ "/temp/video_list_" ++
        w.uuidStream (w.nextUuid + 1))).trans hm2
    case f3 =>
      intro q hq
      rw [p7] at hq
      simp [hrl] at hq
    case f4 =>
      intro j hq
      rw [p7] at hq
      simp [hrl] at hq
    case f5 =>
      intro hq
      rw [p7] at hq
      simp [hrl] at hq
  · rw [cvu_ok_generic urls outd w ps w1p hloop]
    obtain ⟨hps, l1, l2, l3, l4, l5, l6, l7, l8, l9, l10, l11⟩ :=
      downloadLoop_ok (videosDirOf w) urls 0
        { w with nextUuid := w.nextUuid + 1 } ps w1p hloop
    have hval : validateInputs
        (fsWrite w1p (listFile1Of w) (manifestContent ps)) ps = true := by
      rw [validateInputs_true_iff]
      intro p hp
      rw [hps] at hp
      obtain ⟨j, hj, rfl⟩ := List.mem_map.mp hp
      rw [List.mem_range] at hj
      rw [fsWrite_fs]
      rw [if_neg (by
        obtain ⟨t, ht⟩ := resolve_clipPath_mp4 (videosDirOf w) (0 + j)
        rw [ht]
        intro he
        exact txt_ne_mp4 (cwd ++ "/temp/video_list_" ++ batchOf w) t
          he.symm)]
      exact l10 j hj
    obtain ⟨c1, c2, c3⟩ := combine_videos_cleanup ps
      (combinedPathOf w outd)
      (fsWrite w1p (listFile1Of w) (manifestContent ps)) hval
    have hlf2 : lfOf (fsWrite w1p (listFile1Of w) (manifestContent ps)) =
        listFile2Of w := by
      unfold lfOf listFile2Of
      rw [fsWrite_uuid, fsWrite_next, p3, p5]
    rw [hlf2] at c1 c2
    have hrr2 : (combine_videos ps (combinedPathOf w outd)
        (fsWrite w1p (listFile1Of w)
          (manifestContent ps))).2.removeRaises = w.removeRaises := by
      rw [c3, fsWrite_rr, p4]
    have hfs2 : (combine_videos ps (combinedPathOf w outd)
        (fsWrite w1p (listFile1Of w)
          (manifestContent ps))).2.fs (listFile2Of w) = none :=
      c2 (by rw [fsWrite_rr, p4]; exact hrm (listFile2Of w))
    have hrl2 : (combine_videos ps (combinedPathOf w outd)
        (fsWrite w1p (listFile1Of w)
          (manifestContent ps))).2.removeLog = [] ∨
        (combine_videos ps (combinedPathOf w outd)
          (fsWrite w1p (listFile1Of w)
            (manifestContent ps))).2.removeLog = [listFile2Of w] := by
      have hbase : (fsWrite w1p (listFile1Of w)
          (manifestContent ps)).removeLog = [] := by
        rw [fsWrite_rlog, p7]; exact hrl
      rcases c1 with h | h
      · exact Or.inl (by rw [h, hbase])
      · exact Or.inr (by rw [h, hbase, List.nil_append])
    split
    all_goals
      obtain ⟨w1f, hfin, hfnone, hfpres, hfrlog, hfcalls, _, _, _, _, _⟩ :=
        finallyRemove_ok _ (by rw [hrr2]; exact hrm (listFile1Of w))
    all_goals rw [hfin]
    all_goals
      have hlogfact : ∀ q ∈ w1f.removeLog,
          q = listFile1Of w ∨ q = listFile2Of w := by
        intro q hq
        rcases hfrlog with h | h <;> rw [h] at hq
        · rcases hrl2 with h2 | h2 <;> rw [h2] at hq
          · cases hq
          · exact Or.inr (List.mem_singleton.mp hq)
        · rcases List.mem_append.mp hq with hq2 | hq2
          · rcases hrl2 with h2 | h2 <;> rw [h2] at hq2
            · cases hq2
            · exact Or.inr (List.mem_singleton.mp hq2)
          · exact Or.inl (List.mem_singleton.mp hq2)
    all_goals
      exact ⟨_, w1f, rfl, hfnone,
        (by
          by_cases hcase : listFile2Of w = listFile1Of w
          · rw [hcase]; exact hfnone
          · rw [hfpres _ hcase]; exact hfs2),
        hlogfact,
        fun j hq => (hmp4 _ (hlogfact _ hq)).1 j rfl,
        fun hq => (hmp4 _ (hlogfact _ hq)).2 rfl⟩

theorem spec_C6_witness :
    ∃ r w1, combine_videos_from_urls ["u"] "outdir" wGood =
        (Except.ok r, w1) ∧
      w1.fs (listFile1Of wGood) = none ∧
      w1.fs (listFile2Of wGood) = none ∧
      (∀ q ∈ w1.removeLog,
        q = listFile1Of wGood ∨ q = listFile2Of wGood) ∧
      (∀ j, ¬ resolve (clipPath (videosDirOf wGood) j) ∈ w1.removeLog) ∧
      ¬ resolve (combinedPathOf wGood "outdir") ∈ w1.removeLog :=
  spec_C6 ["u"] "outdir" wGood (fun _ => rfl) rfl rfl rfl

/-! ### C8 -/

/-- A successful orchestrator run reports the batch download directory
and a download URL built from the combined file's basename — both derived
from the run's 8-character batch id (lines 150, 153, 166-167, 224-230). -/
theorem cvu_success_fields {urls : List String} {outd : String}
    {w : World} {r : CombineResult} {w1 : World}
    (h : combine_videos_from_urls urls outd w = (Except.ok r, w1))
    (hs : r.success = true) :
    r.videos_directory = some (videosDirOf w) ∧
    r.download_url =
      some ("/download/" ++ basename (combinedPathOf w outd)) := by
  rcases hloop : downloadLoop (videosDirOf w) urls 0
      { w with nextUuid := w.nextUuid + 1 } with ⟨res, w1p⟩
  rcases res with e | ps
  · rw [cvu_err_generic urls outd w e w1p hloop] at h
    have hr : r = { success := false, error := some e } :=
      (Except.ok.inj ((Prod.mk.injEq _ _ _ _).mp h).1).symm
    rw [hr] at hs
    cases hs
  · rw [cvu_ok_generic urls outd w ps w1p hloop] at h
    split at h
    · have hr := finallyRemove_ok_inv h
      rw [hr] at hs
      cases hs
    · have hr := finallyRemove_ok_inv h
      rw [hr]
      exact ⟨rfl, rfl⟩

/-- The combined file's name is slash-free whenever the batch id is. -/
theorem combinedName_slashfree (s : String)
    (h : ∀ c ∈ s.data, ¬ c = '/') :
    ∀ c ∈ ("combined_" ++ s ++ ".mp4").data, ¬ c = '/' := by
  intro c hc
  rw [String.data_append, String.data_append] at hc
  rcases List.mem_append.mp hc with hc | hc
  · rcases List.mem_append.mp hc with hc | hc
    · exact (by decide : ∀ c ∈ ("combined_" : String).data, ¬ c = '/')
        c hc
    · exact h c hc
  · exact (by decide : ∀ c ∈ (".mp4" : String).data, ¬ c = '/') c hc

/-- A world in which two consecutive runs draw distinct (fresh) uuid4
values whose first 8 characters nevertheless coincide. -/
def wDup : World :=
  { wGood with uuidStream := fun n =>
      if n = 0 then "aaaaaaaa-1111"
      else if n = 1 then "m-one"
      else if n = 2 then "aaaaaaaa-2222"
      else "m-three" }

/-- C8, counterexample: the claim says any two invocations get distinct
batch identifiers, hence distinct download directories and output
filenames. The code truncates each uuid4 to 8 characters (line 150), so
two invocations drawing distinct uuid4 values that agree on their first 8
characters reuse exactly the same download directory and the same
combined filename. -/
theorem spec_C8_counterexample :
    ∃ r1 r2,
      (combine_videos_from_urls ["u"] "outdir" wDup).1 = Except.ok r1 ∧
      (combine_videos_from_urls ["u"] "outdir"
        (combine_videos_from_urls ["u"] "outdir" wDup).2).1 =
        Except.ok r2 ∧
      r1.success = true ∧ r2.success = true ∧
      wDup.uuidStream wDup.nextUuid ≠
        (combine_videos_from_urls ["u"] "outdir" wDup).2.uuidStream
          (combine_videos_from_urls ["u"] "outdir" wDup).2.nextUuid ∧
      r1.videos_directory = r2.videos_directory ∧
      r1.videos_directory =
        some "/workdir/downloaded_videos/batch_aaaaaaaa" ∧
      r1.download_url = r2.download_url ∧
      r1.download_url = some "/download/combined_aaaaaaaa.mp4" := by
  refine ⟨_, _, rfl, rfl, rfl, rfl, by decide, rfl, rfl, rfl, rfl⟩

/-- C8, amended: two successful invocations are guaranteed distinct
download directories and distinct download URLs only when their batch ids
— the uuid4 draws truncated to 8 characters — differ (and, for the URL,
when the ids are slash-free, as every real uuid4 is). -/
theorem spec_C8 (urls1 urls2 : List String) (outd1 outd2 : String)
    (w v : World) {r1 r2 : CombineResult} {w1 v1 : World}
    (h1 : combine_videos_from_urls urls1 outd1 w = (Except.ok r1, w1))
    (h2 : combine_videos_from_urls urls2 outd2 v = (Except.ok r2, v1))
    (hs1 : r1.success = true) (hs2 : r2.success = true)
    (hb : batchOf w ≠ batchOf v)
    (hf1 : ∀ c ∈ (batchOf w).data, ¬ c = '/')
    (hf2 : ∀ c ∈ (batchOf v).data, ¬ c = '/') :
    r1.videos_directory ≠ r2.videos_directory ∧
    r1.download_url ≠ r2.download_url := by
  obtain ⟨hv1, hu1⟩ := cvu_success_fields h1 hs1
  obtain ⟨hv2, hu2⟩ := cvu_success_fields h2 hs2
  constructor
  · rw [hv1, hv2]
    intro he
    apply hb
    have h3 := Option.some.inj he
    unfold videosDirOf at h3
    exact string_append_left_cancel h3
  · rw [hu1, hu2]
    intro he
    apply hb
    have h3 := Option.some.inj he
    unfold combinedPathOf at h3
    rw [basename_pyJoin _ _ (combinedName_slashfree (batchOf w) hf1),
        basename_pyJoin _ _ (combinedName_slashfree (batchOf v) hf2)]
      at h3
    have h4 := string_append_left_cancel h3
    have h5 := string_append_right_cancel h4
    exact string_append_left_cancel h5

/-- A second well-behaved world whose uuid stream differs from `wGood`'s
already within the first 8 characters. -/
def wGood2 : World :=
  { wGood with uuidStream := fun n => "x" ++ toString n }

theorem spec_C8_witness :
    (some "/workdir/downloaded_videos/batch_id0" : Option String) ≠
      some "/workdir/downloaded_videos/batch_x0" ∧
    (some "/download/combined_id0.mp4" : Option String) ≠
      some "/download/combined_x0.mp4" :=
  spec_C8 ["u"] ["u"] "outdir" "outdir" wGood wGood2 rfl rfl rfl rfl
    (by decide) (by decide) (by decide)

end VideoCombiner


